import Mathlib

/-
  Verification of the games-calendar reconciliation engine.

  Shallow embedding of the JavaScript sources:
    - calendar-scripts/src/utils/hashUtils.js        (calculateEventHash)
    - calendar-scripts/src/utils/syncStateManager.js (loadSyncState)
    - the calendar sync service (syncWithCalendar, repairSyncState,
      buildEventData, formatDate)

  JavaScript objects used as string-keyed maps are embedded as insertion
  ordered association lists (JS preserves insertion order for the
  non-integer string keys used here); JS `Map` is embedded the same way.
  Fallible remote-adapter calls are embedded as `Except`-valued oracles
  passed in as parameters, and `new Date().toISOString()` timestamps as an
  explicit `now : String` parameter.
-/

set_option autoImplicit false

namespace GamesCalendar

/-! ## Association lists: JS object / Map semantics -/

/-- Lookup of `obj[k]`: first binding for the key, `none` when absent. -/
def assocFind {α : Type} : List (String × α) → String → Option α
  | [], _ => none
  | (k', v) :: t, k => if k' = k then some v else assocFind t k

/-- Assignment `obj[k] = v`: replaces the value in place when the key is
present (JS keeps the original key position), appends otherwise. -/
def assocSet {α : Type} : List (String × α) → String → α → List (String × α)
  | [], k, v => [(k, v)]
  | (k', v') :: t, k, v =>
      if k' = k then (k, v) :: t else (k', v') :: assocSet t k v

/-- Deletion `delete obj[k]`. -/
def assocErase {α : Type} : List (String × α) → String → List (String × α)
  | [], _ => []
  | (k', v') :: t, k =>
      if k' = k then assocErase t k else (k', v') :: assocErase t k

/-- The key list of an object, in iteration order (`Object.keys`). -/
def keysOf {α : Type} (l : List (String × α)) : List String := l.map Prod.fst

@[simp] theorem assocFind_nil {α : Type} (k : String) :
    assocFind ([] : List (String × α)) k = none := rfl

@[simp] theorem assocFind_cons {α : Type} (k' k : String) (v : α)
    (t : List (String × α)) :
    assocFind ((k', v) :: t) k = if k' = k then some v else assocFind t k := rfl

theorem assocFind_assocSet_self {α : Type} (l : List (String × α)) (k : String)
    (v : α) : assocFind (assocSet l k v) k = some v := by
  induction l with
  | nil => simp [assocSet]
  | cons p t ih =>
      obtain ⟨k', v'⟩ := p
      by_cases h : k' = k <;> simp [assocSet, h, ih]

theorem assocFind_assocSet_ne {α : Type} (l : List (String × α)) (k k₀ : String)
    (v : α) (h : k ≠ k₀) : assocFind (assocSet l k v) k₀ = assocFind l k₀ := by
  induction l with
  | nil => simp [assocSet, h]
  | cons p t ih =>
      obtain ⟨k', v'⟩ := p
      by_cases hk : k' = k
      · subst hk
        simp [assocSet, h]
      · simp only [assocSet, if_neg hk, assocFind_cons]
        by_cases hk0 : k' = k₀ <;> simp [hk0, ih]

theorem assocFind_assocErase_self {α : Type} (l : List (String × α))
    (k : String) : assocFind (assocErase l k) k = none := by
  induction l with
  | nil => simp [assocErase]
  | cons p t ih =>
      obtain ⟨k', v'⟩ := p
      by_cases h : k' = k <;> simp [assocErase, h, ih]

theorem assocFind_assocErase_ne {α : Type} (l : List (String × α))
    (k k₀ : String) (h : k ≠ k₀) :
    assocFind (assocErase l k) k₀ = assocFind l k₀ := by
  induction l with
  | nil => simp [assocErase]
  | cons p t ih =>
      obtain ⟨k', v'⟩ := p
      by_cases hk : k' = k
      · subst hk
        rw [assocErase, if_pos rfl, ih, assocFind_cons, if_neg h]
      · simp only [assocErase, if_neg hk, assocFind_cons]
        by_cases hk0 : k' = k₀ <;> simp [hk0, ih]

theorem keysOf_assocSet {α : Type} (l : List (String × α)) (k : String) (v : α) :
    keysOf (assocSet l k v) = if (assocFind l k).isSome then keysOf l
      else keysOf l ++ [k] := by
  induction l with
  | nil => simp [assocSet, keysOf]
  | cons p t ih =>
      obtain ⟨k', v'⟩ := p
      by_cases h : k' = k <;>
        simp_all [assocSet, keysOf, Option.isSome] <;>
        split <;> simp_all

theorem mem_keysOf_of_assocFind {α : Type} (l : List (String × α)) (k : String)
    (v : α) (h : assocFind l k = some v) : k ∈ keysOf l := by
  induction l with
  | nil => simp [assocFind] at h
  | cons p t ih =>
      obtain ⟨k', v'⟩ := p
      by_cases hk : k' = k
      · simp [keysOf, hk]
      · simp only [assocFind_cons, if_neg hk] at h
        simp only [keysOf, List.map_cons, List.mem_cons]
        exact Or.inr (ih h)

theorem assocFind_isSome_of_mem_keys {α : Type} (l : List (String × α))
    (k : String) (h : k ∈ keysOf l) : (assocFind l k).isSome := by
  induction l with
  | nil => simp [keysOf] at h
  | cons p t ih =>
      obtain ⟨k', v'⟩ := p
      by_cases hk : k' = k
      · simp [assocFind, hk]
      · simp only [keysOf, List.map_cons, List.mem_cons] at h
        rcases h with h | h
        · exact absurd h.symm hk
        · simpa [assocFind, hk] using ih h

theorem assocFind_eq_none_of_not_mem_keys {α : Type} (l : List (String × α))
    (k : String) (h : k ∉ keysOf l) : assocFind l k = none := by
  cases hf : assocFind l k with
  | none => rfl
  | some v => exact absurd (mem_keysOf_of_assocFind l k v hf) h

theorem nodup_keys_assocSet {α : Type} (l : List (String × α)) (k : String)
    (v : α) (h : (keysOf l).Nodup) : (keysOf (assocSet l k v)).Nodup := by
  rw [keysOf_assocSet]
  split
  · exact h
  · rename_i hfind
    have hk : k ∉ keysOf l := by
      intro hmem
      exact hfind (assocFind_isSome_of_mem_keys l k hmem)
    rw [List.nodup_append]
    refine ⟨h, List.nodup_singleton k, fun a ha hb => ?_⟩
    rw [List.mem_singleton] at hb
    exact hk (hb ▸ ha)

theorem assocErase_sublist {α : Type} (l : List (String × α)) (k : String) :
    List.Sublist (assocErase l k) l := by
  induction l with
  | nil => simp [assocErase]
  | cons p t ih =>
      obtain ⟨k', v'⟩ := p
      by_cases h : k' = k
      · simp only [assocErase, if_pos h]
        exact ih.trans (List.sublist_cons_self _ _)
      · simp only [assocErase, if_neg h]
        exact ih.cons₂ _

theorem nodup_keys_assocErase {α : Type} (l : List (String × α)) (k : String)
    (h : (keysOf l).Nodup) : (keysOf (assocErase l k)).Nodup :=
  h.sublist ((assocErase_sublist l k).map Prod.fst)

/-! ## Canonical events

A standardized event as produced by the adapters.  Scalar fields that the
adapters may leave out are `Option String` (JS `undefined` is `none`); the
`location` sub-object is an insertion-ordered list of its fields, because
`JSON.stringify` serializes a JS object in key insertion order. -/

structure Event where
  id : String
  name : Option String
  dateStart : Option String
  dateEnd : Option String
  location : Option (List (String × String))
  category : Option String
  level : Option String
  prize : Option String
  url : Option String
  description : Option String
  source : Option String
  lastUpdated : Option String
  deriving DecidableEq

/-! ## Content hash (calendar-scripts/src/utils/hashUtils.js) -/

/-- Code-unit comparison of character lists, as `Array.prototype.sort`
compares strings (by UTF-16 code units; all keys sorted in this system
are ASCII, for which scalar values and code units agree). -/
def charListLt : List Char → List Char → Bool
  | [], [] => false
  | [], _ :: _ => true
  | _ :: _, [] => false
  | a :: as, b :: bs =>
      if a.toNat < b.toNat then true
      else if b.toNat < a.toNat then false
      else charListLt as bs

/-- The default JS string order. -/
def strLt (a b : String) : Bool := charListLt a.toList b.toList

/-- Escaping applied by `JSON.stringify` to string values.  Control
characters other than the common whitespace escapes are left as-is; no
field value in this system contains them. -/
def jsEscapeChar (c : Char) : String :=
  if c = '\\' then "\\\\"
  else if c = '"' then "\\\""
  else if c = '\n' then "\\n"
  else if c = '\t' then "\\t"
  else if c = '\r' then "\\r"
  else String.singleton c

def jsEscape (s : String) : String :=
  String.join (s.toList.map jsEscapeChar)

/-- Serialization of a JS string value. -/
def jsonString (s : String) : String :=
  "\"" ++ jsEscape s ++ "\""

/-- Serialization of a JS object whose field values are already
serialized, in the object's own key order (`JSON.stringify` semantics). -/
def jsonObj (fields : List (String × String)) : String :=
  "\x7b" ++ String.intercalate ","
    (fields.map (fun p => jsonString p.1 ++ ":" ++ p.2)) ++ "\x7d"

/-- Serialization of the `location` value of `hashFields`:
`event.location || {}`. -/
def jsonLocation : Option (List (String × String)) → String
  | none => jsonObj []
  | some fs => jsonObj (fs.map (fun p => (p.1, jsonString p.2)))

/-- The `hashFields` object of `calculateEventHash`, in its source key
order, with each value already serialized.  Absent scalar fields default
to `''` and an absent location to `{}` (the `|| ''` / `|| {}` defaults). -/
def hashFieldsList (e : Event) : List (String × String) :=
  [ ("name", jsonString (e.name.getD "")),
    ("dateStart", jsonString (e.dateStart.getD "")),
    ("dateEnd", jsonString (e.dateEnd.getD "")),
    ("location", jsonLocation e.location),
    ("category", jsonString (e.category.getD "")),
    ("level", jsonString (e.level.getD "")),
    ("prize", jsonString (e.prize.getD "")),
    ("url", jsonString (e.url.getD "")) ]

/-- Insertion into a key-sorted field list (`Object.keys(...).sort()`
compares keys lexicographically; all keys here are ASCII). -/
def insertSorted (p : String × String) :
    List (String × String) → List (String × String)
  | [] => [p]
  | q :: t => if strLt p.1 q.1 then p :: q :: t else q :: insertSorted p t

/-- Re-building `sortedFields`: the projection with its keys sorted. -/
def sortByKey (l : List (String × String)) : List (String × String) :=
  l.foldr insertSorted []

/-- The string handed to the digest: `JSON.stringify(sortedFields)`. -/
def hashInput (e : Event) : String :=
  jsonObj (sortByKey (hashFieldsList e))

/-- Stands for `crypto.createHash('md5').update(s).digest('hex')
.substring(0, 16)`.  Every claim about the hash concerns only equality
and inequality of digests, so the digest is modelled by the digested
input itself, which has the same (in)equality behaviour (the spec itself
assumes MD5 collisions are negligible). -/
def md5Hex16 (s : String) : String := s

/-- `calculateEventHash` of hashUtils.js. -/
def calculateEventHash (e : Event) : String :=
  md5Hex16 (hashInput e)

/-! ## Sync state (calendar-scripts/src/utils/syncStateManager.js) -/

/-- One entry of `sportSyncState.events`. -/
structure SyncRecord where
  googleEventId : String
  lastSynced : String
  hash : String
  deriving DecidableEq

structure SportStatsInfo where
  totalEvents : Nat
  lastUpdate : String
  deriving DecidableEq

structure SportSyncState where
  calendarId : String
  events : List (String × SyncRecord)
  stats : SportStatsInfo
  deriving DecidableEq

/-- The persisted root document. -/
structure SyncState where
  version : String
  lastSync : Option String
  sports : List (String × SportSyncState)
  deriving DecidableEq

/-- Read failures of `fs.readFile` / `JSON.parse`, abstracted to the one
error code the loader inspects. -/
inductive FsError where
  | enoent
  | other (code : String)
  deriving DecidableEq

/-- `loadSyncState` of syncStateManager.js, over the outcome of reading
and parsing the persisted document.  `ENOENT` yields the empty default
state; any other failure is rethrown. -/
def loadSyncState (readResult : Except FsError SyncState) :
    Except FsError SyncState :=
  match readResult with
  | Except.ok state => Except.ok state
  | Except.error FsError.enoent =>
      Except.ok { version := "1.0", lastSync := none, sports := [] }
  | Except.error e => Except.error e

/-! ## The reconciliation pass (`syncWithCalendar`, steps 4-8)

The Google Calendar API calls are embedded as an oracle `Adapter` whose
results (`Except.ok` / `Except.error`) stand for a normal return or a
thrown error of `calendar.events.insert/update/delete`.  The pass also
records the remote calls it issues, in order, so that "no remote call"
and "processing continues after a failure" are stateable. -/

structure Adapter where
  create : Event → Except String String
  update : String → Event → Except String Unit
  delete : String → Except String Unit

/-- One remote adapter invocation. -/
inductive RemoteCall where
  | create (event : Event)
  | update (googleEventId : String) (event : Event)
  | delete (googleEventId : String)
  deriving DecidableEq

/-- The `stats` accumulator of `syncWithCalendar` (step 5). -/
structure Stats where
  created : Nat
  updated : Nat
  deleted : Nat
  unchanged : Nat
  deriving DecidableEq

/-- Step 4: `localEventsMap`, a JS `Map` keyed by `event.id` built with
`set` (insertion order, later duplicate ids overwrite in place). -/
def buildLocalEventsMap (localEvents : List Event) : List (String × Event) :=
  localEvents.foldl (fun m e => assocSet m e.id e) []

/-- Step 6: the CREATE / UPDATE / SKIP loop over `localEventsMap`. -/
def processEvents (ad : Adapter) (now : String) :
    List (String × Event) → SportSyncState → Stats → List RemoteCall →
    SportSyncState × Stats × List RemoteCall
  | [], s, stats, calls => (s, stats, calls)
  | (eventId, event) :: rest, s, stats, calls =>
      let eventHash := calculateEventHash event
      match assocFind s.events eventId with
      | none =>
          -- CREATE: no sync record for this id
          match ad.create event with
          | Except.ok googleEventId =>
              processEvents ad now rest
                { s with events := (assocSet s.events eventId
                    { googleEventId := googleEventId, lastSynced := now,
                      hash := eventHash }) }
                { stats with created := stats.created + 1 }
                (calls ++ [RemoteCall.create event])
          | Except.error _ =>
              -- failure is logged; no record is written
              processEvents ad now rest s stats (calls ++ [RemoteCall.create event])
      | some existingSync =>
          if existingSync.hash ≠ eventHash then
            -- UPDATE: hash differs
            match ad.update existingSync.googleEventId event with
            | Except.ok _ =>
                processEvents ad now rest
                  { s with events := (assocSet s.events eventId
                      { existingSync with hash := eventHash, lastSynced := now }) }
                  { stats with updated := stats.updated + 1 }
                  (calls ++ [RemoteCall.update existingSync.googleEventId event])
            | Except.error _ =>
                processEvents ad now rest s stats
                  (calls ++ [RemoteCall.update existingSync.googleEventId event])
          else
            -- SKIP: unchanged, no remote call
            processEvents ad now rest s
              { stats with unchanged := stats.unchanged + 1 } calls

/-- Step 7: the DELETE loop over the key snapshot
`Object.keys(sportSyncState.events)`. -/
def processDeletes (ad : Adapter) (localEventsMap : List (String × Event)) :
    List String → SportSyncState → Stats → List RemoteCall →
    SportSyncState × Stats × List RemoteCall
  | [], s, stats, calls => (s, stats, calls)
  | eventId :: rest, s, stats, calls =>
      if (assocFind localEventsMap eventId).isSome then
        processDeletes ad localEventsMap rest s stats calls
      else
        match assocFind s.events eventId with
        | none =>
            -- `syncData` would be `undefined`; the property access throws
            -- inside the try block and is caught: no mutation.  Unreachable
            -- when the key snapshot has no duplicates.
            processDeletes ad localEventsMap rest s stats calls
        | some syncData =>
            match ad.delete syncData.googleEventId with
            | Except.ok _ =>
                processDeletes ad localEventsMap rest
                  { s with events := assocErase s.events eventId }
                  { stats with deleted := stats.deleted + 1 }
                  (calls ++ [RemoteCall.delete syncData.googleEventId])
            | Except.error _ =>
                processDeletes ad localEventsMap rest s stats
                  (calls ++ [RemoteCall.delete syncData.googleEventId])

/-- Steps 4-8 of `syncWithCalendar` for one source: build the map, run the
CREATE/UPDATE/SKIP loop, then the DELETE loop, then refresh the `stats`
field of the per-sport state. -/
def syncPass (ad : Adapter) (now : String) (localEvents : List Event)
    (s0 : SportSyncState) : SportSyncState × Stats × List RemoteCall :=
  let localEventsMap := buildLocalEventsMap localEvents
  let r1 := processEvents ad now localEventsMap s0
    { created := 0, updated := 0, deleted := 0, unchanged := 0 } []
  let r2 := processDeletes ad localEventsMap (keysOf r1.1.events) r1.1 r1.2.1 r1.2.2
  ({ r2.1 with stats := { totalEvents := localEvents.length, lastUpdate := now } },
   r2.2.1, r2.2.2)

/-! ## Repair pass (`repairSyncState`)

`calendar.events.get` is embedded as an oracle returning `none` when the
call succeeds (the entity exists) and `some code` when it throws an error
with that `error.code`. -/

/-- The verification loop: each record is kept or purged according to the
outcome of the existence check on its `googleEventId`; the second
component counts the purged records (`repairedCount`). -/
def repairLoop (getEvent : String → Option Nat) :
    List (String × SyncRecord) → List (String × SyncRecord) × Nat
  | [] => ([], 0)
  | (eventId, syncData) :: rest =>
      let r := repairLoop getEvent rest
      match getEvent syncData.googleEventId with
      | none => ((eventId, syncData) :: r.1, r.2)
      | some code =>
          if code = 404 then (r.1, r.2 + 1)
          else ((eventId, syncData) :: r.1, r.2)

/-- `repairSyncState` for one sport: `{repaired, total}` with the state
the pass leaves behind.  A missing per-sport state repairs nothing. -/
def repairSyncState (getEvent : String → Option Nat) (syncState : SyncState)
    (sportId : String) : SyncState × Nat × Nat :=
  match assocFind syncState.sports sportId with
  | none => (syncState, 0, 0)
  | some sportState =>
      let totalCount := (keysOf sportState.events).length
      let r := repairLoop getEvent sportState.events
      ({ syncState with sports := (assocSet syncState.sports sportId
          { sportState with events := r.1 }) }, r.2, totalCount)

/-! ## Google Calendar payload (`buildEventData`, `formatDate`) -/

def isLeapYear (y : Nat) : Bool :=
  (y % 4 == 0 && y % 100 != 0) || y % 400 == 0

def daysInMonth (y m : Nat) : Nat :=
  if m = 2 then (if isLeapYear y then 29 else 28)
  else if m = 4 ∨ m = 6 ∨ m = 9 ∨ m = 11 then 30
  else 31

/-- One UTC calendar day forward, as `date.setUTCDate(date.getUTCDate()+1)`
normalizes an overflowing day-of-month. -/
def nextDay : Nat × Nat × Nat → Nat × Nat × Nat
  | (y, m, d) =>
      if d < daysInMonth y m then (y, m, d + 1)
      else if m < 12 then (y, m + 1, 1)
      else (y + 1, 1, 1)

/-- `String.prototype.split` with a one-character separator (the only
separators this system uses). -/
def splitOnCharAux (sep : Char) : List Char → List (List Char)
  | [] => [[]]
  | c :: rest =>
      match splitOnCharAux sep rest with
      | [] => [[]]
      | g :: gs => if c = sep then [] :: g :: gs else (c :: g) :: gs

def jsSplitChar (s : String) (sep : Char) : List String :=
  (splitOnCharAux sep s.toList).map (fun l => String.mk l)

def charDigit (c : Char) : Option Nat :=
  if 48 ≤ c.toNat ∧ c.toNat ≤ 57 then some (c.toNat - 48) else none

/-- Decimal parsing of a digit string. -/
def strToNat (s : String) : Option Nat :=
  match s.toList with
  | [] => none
  | l => l.foldl (fun acc c =>
      match acc, charDigit c with
      | some n, some d => some (n * 10 + d)
      | _, _ => none) (some 0)

/-- Parsing of the `YYYY-MM-DD` prefix by `new Date(dateStr+'T00:00:00Z')`:
an ISO date with in-range components; anything else is an invalid date. -/
def parseYMD (s : String) : Option (Nat × Nat × Nat) :=
  match jsSplitChar s '-' with
  | [ys, ms, ds] =>
      if ys.length = 4 ∧ ms.length = 2 ∧ ds.length = 2 then
        match strToNat ys, strToNat ms, strToNat ds with
        | some y, some m, some d =>
            if 1 ≤ m ∧ m ≤ 12 ∧ 1 ≤ d ∧ d ≤ daysInMonth y m then
              some (y, m, d)
            else none
        | _, _, _ => none
      else none
  | _ => none

def pad2 (n : Nat) : String :=
  if n < 10 then "0" ++ toString n else toString n

def pad4 (n : Nat) : String :=
  if n < 10 then "000" ++ toString n
  else if n < 100 then "00" ++ toString n
  else if n < 1000 then "0" ++ toString n
  else toString n

/-- The date part of `toISOString()` output. -/
def formatYMD : Nat × Nat × Nat → String
  | (y, m, d) => pad4 y ++ "-" ++ pad2 m ++ "-" ++ pad2 d

/-- `dateString.split('T')[0]`: the calendar-date part of an ISO string. -/
def datePart (dateString : String) : String :=
  (jsSplitChar dateString 'T').headD dateString

/-- `formatDate` of the sync service.  `dateString.split('T')[0]`; for an
end date the day is advanced by one in UTC via a `Date` round-trip, which
throws (`none`) when the date part is not a valid ISO date. -/
def formatDate (dateString : String) (isEndDate : Bool) : Option String :=
  let dateStr := datePart dateString
  if isEndDate then
    (parseYMD dateStr).map (fun ymd => formatYMD (nextDay ymd))
  else some dateStr

/-- `formatLocation`: venue, city, country joined with `', '`, falsy
(absent or empty) parts filtered out. -/
def formatLocation (location : Option (List (String × String))) : String :=
  match location with
  | none => ""
  | some fs =>
      String.intercalate ", "
        ((([assocFind fs "venue", assocFind fs "city",
            assocFind fs "country"].filterMap id).filter (fun s => s ≠ "")))

structure GDateField where
  date : String
  timeZone : String
  deriving DecidableEq

structure GSource where
  title : String
  url : String
  deriving DecidableEq

/-- The request body handed to `calendar.events.insert` / `update`. -/
structure GEventData where
  summary : Option String
  location : String
  description : String
  start : GDateField
  «end» : GDateField
  transparency : String
  visibility : String
  source : GSource
  deriving DecidableEq

/-- `buildEventData`.  `none` models the thrown `TypeError` when a date
field is `undefined` (the `.split` call) or the thrown `RangeError` when
the end date is invalid (the `toISOString` call). -/
def buildEventData (event : Event) : Option GEventData :=
  match event.dateStart, event.dateEnd with
  | some ds, some de =>
      match formatDate ds false, formatDate de true with
      | some startDate, some endDate =>
          some { summary := event.name,
                 location := formatLocation event.location,
                 description := event.description.getD "",
                 start := { date := startDate, timeZone := "UTC" },
                 «end» := { date := endDate, timeZone := "UTC" },
                 transparency := "transparent",
                 visibility := "public",
                 source := { title := (event.source.getD "undefined") ++ " Calendar",
                             url := event.url.getD "" } }
      | _, _ => none
  | _, _ => none

/-! ## Characterizations of the reconciliation pass

The per-event decision rule read off a fixed state, and lemmas showing
that the CREATE/UPDATE/SKIP loop and the DELETE loop realize it entry by
entry (with the ids of one pass pairwise distinct, an entry's decision
never depends on the processing of the other entries). -/

/-- The remote call the per-event decision rule issues for one entry of
the local map, `none` for SKIP. -/
def decisionCall (ad : Adapter) (s : SportSyncState) (p : String × Event) :
    Option RemoteCall :=
  match assocFind s.events p.1 with
  | none => some (RemoteCall.create p.2)
  | some r =>
      if r.hash ≠ calculateEventHash p.2 then
        some (RemoteCall.update r.googleEventId p.2)
      else none

/-- The sync record an entry carries after its step: freshly written on a
successful CREATE/UPDATE, untouched otherwise. -/
def entryNewRecord (ad : Adapter) (now : String) (s : SportSyncState)
    (p : String × Event) : Option SyncRecord :=
  match assocFind s.events p.1 with
  | none =>
      match ad.create p.2 with
      | Except.ok g =>
          some ({ googleEventId := g, lastSynced := now,
                  hash := calculateEventHash p.2 })
      | Except.error _ => none
  | some r =>
      if r.hash ≠ calculateEventHash p.2 then
        match ad.update r.googleEventId p.2 with
        | Except.ok _ =>
            some ({ r with hash := calculateEventHash p.2, lastSynced := now })
        | Except.error _ => some r
      else some r

theorem decisionCall_congr (ad : Adapter) (s s' : SportSyncState)
    (p : String × Event) (h : assocFind s.events p.1 = assocFind s'.events p.1) :
    decisionCall ad s p = decisionCall ad s' p := by
  simp [decisionCall, h]

theorem entryNewRecord_congr (ad : Adapter) (now : String)
    (s s' : SportSyncState) (p : String × Event)
    (h : assocFind s.events p.1 = assocFind s'.events p.1) :
    entryNewRecord ad now s p = entryNewRecord ad now s' p := by
  simp [entryNewRecord, h]

/-- One step of the CREATE/UPDATE/SKIP loop, as a value. -/
def stepResult (ad : Adapter) (now : String) (s : SportSyncState)
    (stats : Stats) (calls : List RemoteCall) (eventId : String)
    (event : Event) : SportSyncState × Stats × List RemoteCall :=
  let eventHash := calculateEventHash event
  match assocFind s.events eventId with
  | none =>
      match ad.create event with
      | Except.ok googleEventId =>
          ({ s with events := (assocSet s.events eventId
              { googleEventId := googleEventId, lastSynced := now,
                hash := eventHash }) },
           { stats with created := stats.created + 1 },
           calls ++ [RemoteCall.create event])
      | Except.error _ => (s, stats, calls ++ [RemoteCall.create event])
  | some existingSync =>
      if existingSync.hash ≠ eventHash then
        match ad.update existingSync.googleEventId event with
        | Except.ok _ =>
            ({ s with events := (assocSet s.events eventId
                { existingSync with hash := eventHash, lastSynced := now }) },
             { stats with updated := stats.updated + 1 },
             calls ++ [RemoteCall.update existingSync.googleEventId event])
        | Except.error _ =>
            (s, stats, calls ++ [RemoteCall.update existingSync.googleEventId event])
      else (s, { stats with unchanged := stats.unchanged + 1 }, calls)

/-- The loop is the fold of its step. -/
theorem processEvents_cons (ad : Adapter) (now : String) (eventId : String)
    (event : Event) (rest : List (String × Event)) (s : SportSyncState)
    (stats : Stats) (calls : List RemoteCall) :
    processEvents ad now ((eventId, event) :: rest) s stats calls =
      processEvents ad now rest
        (stepResult ad now s stats calls eventId event).1
        (stepResult ad now s stats calls eventId event).2.1
        (stepResult ad now s stats calls eventId event).2.2 := by
  cases hfind : assocFind s.events eventId with
  | none =>
      cases hc : ad.create event <;>
        simp [processEvents, stepResult, hfind, hc]
  | some r =>
      by_cases hh : r.hash ≠ calculateEventHash event
      · cases hu : ad.update r.googleEventId event <;>
          simp [processEvents, stepResult, hfind, hh, hu]
      · simp [processEvents, stepResult, hfind, hh]

/-- The step writes precisely the record `entryNewRecord` describes under
the entry's own key. -/
theorem stepResult_find_self (ad : Adapter) (now : String)
    (s : SportSyncState) (stats : Stats) (calls : List RemoteCall)
    (eventId : String) (event : Event) :
    assocFind (stepResult ad now s stats calls eventId event).1.events eventId =
      entryNewRecord ad now s (eventId, event) := by
  cases hfind : assocFind s.events eventId with
  | none =>
      cases hc : ad.create event <;>
        simp [stepResult, entryNewRecord, hfind, hc, assocFind_assocSet_self]
  | some r =>
      by_cases hh : r.hash ≠ calculateEventHash event
      · cases hu : ad.update r.googleEventId event <;>
          simp [stepResult, entryNewRecord, hfind, hh, hu, assocFind_assocSet_self]
      · simp [stepResult, entryNewRecord, hfind, hh]

/-- The step leaves every other key untouched. -/
theorem stepResult_find_ne (ad : Adapter) (now : String) (s : SportSyncState)
    (stats : Stats) (calls : List RemoteCall) (eventId : String)
    (event : Event) (k : String) (hk : eventId ≠ k) :
    assocFind (stepResult ad now s stats calls eventId event).1.events k =
      assocFind s.events k := by
  cases hfind : assocFind s.events eventId with
  | none =>
      cases hc : ad.create event <;>
        simp [stepResult, hfind, hc, assocFind_assocSet_ne _ _ _ _ hk]
  | some r =>
      by_cases hh : r.hash ≠ calculateEventHash event
      · cases hu : ad.update r.googleEventId event <;>
          simp [stepResult, hfind, hh, hu, assocFind_assocSet_ne _ _ _ _ hk]
      · simp [stepResult, hfind, hh]

/-- The step appends exactly the call of the per-event decision rule. -/
theorem stepResult_calls (ad : Adapter) (now : String) (s : SportSyncState)
    (stats : Stats) (calls : List RemoteCall) (eventId : String)
    (event : Event) :
    (stepResult ad now s stats calls eventId event).2.2 =
      calls ++ (decisionCall ad s (eventId, event)).toList := by
  cases hfind : assocFind s.events eventId with
  | none =>
      cases hc : ad.create event <;>
        simp [stepResult, decisionCall, hfind, hc]
  | some r =>
      by_cases hh : r.hash ≠ calculateEventHash event
      · cases hu : ad.update r.googleEventId event <;>
          simp [stepResult, decisionCall, hfind, hh, hu]
      · simp [stepResult, decisionCall, hfind, hh]

/-- Whether an entry ends in a successful CREATE. -/
def isCreateOk (ad : Adapter) (s : SportSyncState) (p : String × Event) : Bool :=
  match assocFind s.events p.1, ad.create p.2 with
  | none, Except.ok _ => true
  | _, _ => false

/-- Whether an entry ends in a successful UPDATE. -/
def isUpdateOk (ad : Adapter) (s : SportSyncState) (p : String × Event) : Bool :=
  match assocFind s.events p.1 with
  | some r =>
      if r.hash ≠ calculateEventHash p.2 then
        match ad.update r.googleEventId p.2 with
        | Except.ok _ => true
        | Except.error _ => false
      else false
  | none => false

/-- Whether an entry is a SKIP. -/
def isUnchangedEntry (s : SportSyncState) (p : String × Event) : Bool :=
  match assocFind s.events p.1 with
  | some r => r.hash == calculateEventHash p.2
  | none => false

theorem isCreateOk_congr (ad : Adapter) (s s' : SportSyncState)
    (p : String × Event) (h : assocFind s.events p.1 = assocFind s'.events p.1) :
    isCreateOk ad s p = isCreateOk ad s' p := by
  simp [isCreateOk, h]

theorem isUpdateOk_congr (ad : Adapter) (s s' : SportSyncState)
    (p : String × Event) (h : assocFind s.events p.1 = assocFind s'.events p.1) :
    isUpdateOk ad s p = isUpdateOk ad s' p := by
  simp [isUpdateOk, h]

theorem isUnchangedEntry_congr (s s' : SportSyncState)
    (p : String × Event) (h : assocFind s.events p.1 = assocFind s'.events p.1) :
    isUnchangedEntry s p = isUnchangedEntry s' p := by
  simp [isUnchangedEntry, h]

/-- The step's statistics increments, case by case. -/
theorem stepResult_stats (ad : Adapter) (now : String) (s : SportSyncState)
    (stats : Stats) (calls : List RemoteCall) (eventId : String)
    (event : Event) :
    (stepResult ad now s stats calls eventId event).2.1 =
      { created := stats.created + (isCreateOk ad s (eventId, event)).toNat,
        updated := stats.updated + (isUpdateOk ad s (eventId, event)).toNat,
        deleted := stats.deleted,
        unchanged := stats.unchanged +
          (isUnchangedEntry s (eventId, event)).toNat } := by
  cases hfind : assocFind s.events eventId with
  | none =>
      cases hc : ad.create event <;>
        simp [stepResult, isCreateOk, isUpdateOk, isUnchangedEntry, hfind, hc]
  | some r =>
      by_cases hh : r.hash ≠ calculateEventHash event
      · have hbf : (r.hash == calculateEventHash event) = false := by
          simpa using hh
        cases hu : ad.update r.googleEventId event <;>
          simp [stepResult, isCreateOk, isUpdateOk, isUnchangedEntry, hfind, hh,
            hu, hbf]
      · have hb : (r.hash == calculateEventHash event) = true := by
          simp only [ne_eq, not_not] at hh
          simp [hh]
        simp [stepResult, isCreateOk, isUpdateOk, isUnchangedEntry, hfind, hh, hb]

/-- The step never disturbs key-uniqueness of the state. -/
theorem stepResult_nodup (ad : Adapter) (now : String) (s : SportSyncState)
    (stats : Stats) (calls : List RemoteCall) (eventId : String)
    (event : Event) (h : (keysOf s.events).Nodup) :
    (keysOf (stepResult ad now s stats calls eventId event).1.events).Nodup := by
  cases hfind : assocFind s.events eventId with
  | none =>
      cases hc : ad.create event <;>
        simp [stepResult, hfind, hc, nodup_keys_assocSet _ _ _ h, h]
  | some r =>
      by_cases hh : r.hash ≠ calculateEventHash event
      · cases hu : ad.update r.googleEventId event <;>
          simp [stepResult, hfind, hh, hu, nodup_keys_assocSet _ _ _ h, h]
      · simp [stepResult, hfind, hh, h]

/-- Frame property of the whole loop: a key absent from the processed map
keeps its binding. -/
theorem processEvents_find_of_not_mem (ad : Adapter) (now : String) :
    ∀ (l : List (String × Event)) (s : SportSyncState) (stats : Stats)
      (calls : List RemoteCall) (k : String), k ∉ keysOf l →
      assocFind (processEvents ad now l s stats calls).1.events k =
        assocFind s.events k := by
  intro l
  induction l with
  | nil => intro s stats calls k _; rfl
  | cons p rest ih =>
      intro s stats calls k hk
      obtain ⟨id, e⟩ := p
      simp only [keysOf, List.map_cons, List.mem_cons, not_or] at hk
      rw [processEvents_cons, ih _ _ _ _ hk.2]
      exact stepResult_find_ne _ _ _ _ _ _ _ _ (fun h => hk.1 h.symm)

/-- Per-entry effect of the whole loop on the state: with pairwise
distinct ids, each entry's record after the pass is determined by the
prior state and the adapter outcome for that entry alone. -/
theorem processEvents_find_of_mem (ad : Adapter) (now : String) :
    ∀ (l : List (String × Event)) (s : SportSyncState) (stats : Stats)
      (calls : List RemoteCall) (eventId : String) (event : Event),
      (keysOf l).Nodup → (eventId, event) ∈ l →
      assocFind (processEvents ad now l s stats calls).1.events eventId =
        entryNewRecord ad now s (eventId, event) := by
  intro l
  induction l with
  | nil => intro s stats calls eventId event _ hmem; simp at hmem
  | cons p rest ih =>
      intro s stats calls eventId event hnd hmem
      obtain ⟨id, e⟩ := p
      simp only [keysOf, List.map_cons, List.nodup_cons] at hnd
      rw [List.mem_cons] at hmem
      rw [processEvents_cons]
      rcases hmem with hmem | hmem
      · have h1 : eventId = id := congrArg Prod.fst hmem
        have h2 : event = e := congrArg Prod.snd hmem
        subst h1; subst h2
        rw [processEvents_find_of_not_mem ad now rest _ _ _ _ hnd.1]
        exact stepResult_find_self ad now s stats calls eventId event
      · have hid : eventId ∈ keysOf rest := by
          exact List.mem_map_of_mem Prod.fst hmem
        have hne : id ≠ eventId := fun h => hnd.1 (h ▸ hid)
        rw [ih _ _ _ _ _ hnd.2 hmem]
        exact entryNewRecord_congr _ _ _ _ _
          (stepResult_find_ne _ _ _ _ _ _ _ _ hne)

/-- The calls the loop issues are exactly the per-event decisions, in map
order, each taken against the pass's initial state. -/
theorem processEvents_calls_spec (ad : Adapter) (now : String) :
    ∀ (l : List (String × Event)) (s : SportSyncState) (stats : Stats)
      (calls : List RemoteCall), (keysOf l).Nodup →
      (processEvents ad now l s stats calls).2.2 =
        calls ++ l.filterMap (decisionCall ad s) := by
  intro l
  induction l with
  | nil => intro s stats calls _; simp [processEvents]
  | cons p rest ih =>
      intro s stats calls hnd
      obtain ⟨id, e⟩ := p
      simp only [keysOf, List.map_cons, List.nodup_cons] at hnd
      rw [processEvents_cons, ih _ _ _ hnd.2]
      have hcong : rest.filterMap
          (decisionCall ad (stepResult ad now s stats calls id e).1) =
          rest.filterMap (decisionCall ad s) := by
        apply List.filterMap_congr
        intro q hq
        refine decisionCall_congr _ _ _ _ ?_
        refine stepResult_find_ne _ _ _ _ _ _ _ _ ?_
        intro h
        exact hnd.1 (h ▸ List.mem_map_of_mem Prod.fst hq)
      rw [hcong, stepResult_calls, List.filterMap_cons]
      cases hd : decisionCall ad s (id, e) <;> simp [hd]

/-- The four counters the loop accumulates: successful CREATEs,
successful UPDATEs and SKIPs, each counted against the initial state;
failures increment nothing. -/
theorem processEvents_stats_spec (ad : Adapter) (now : String) :
    ∀ (l : List (String × Event)) (s : SportSyncState) (stats : Stats)
      (calls : List RemoteCall), (keysOf l).Nodup →
      (processEvents ad now l s stats calls).2.1 =
        { created := stats.created + l.countP (isCreateOk ad s),
          updated := stats.updated + l.countP (isUpdateOk ad s),
          deleted := stats.deleted,
          unchanged := stats.unchanged + l.countP (isUnchangedEntry s) } := by
  intro l
  induction l with
  | nil => intro s stats calls _; simp [processEvents]
  | cons p rest ih =>
      intro s stats calls hnd
      obtain ⟨id, e⟩ := p
      simp only [keysOf, List.map_cons, List.nodup_cons] at hnd
      rw [processEvents_cons, ih _ _ _ hnd.2, stepResult_stats]
      have hagree : ∀ q ∈ rest,
          assocFind (stepResult ad now s stats calls id e).1.events q.1 =
            assocFind s.events q.1 := by
        intro q hq
        refine stepResult_find_ne _ _ _ _ _ _ _ _ ?_
        intro h
        exact hnd.1 (h ▸ List.mem_map_of_mem Prod.fst hq)
      have hc : rest.countP (isCreateOk ad (stepResult ad now s stats calls id e).1) =
          rest.countP (isCreateOk ad s) := by
        apply List.countP_congr
        intro q hq
        rw [isCreateOk_congr ad _ _ _ (hagree q hq)]
      have hu : rest.countP (isUpdateOk ad (stepResult ad now s stats calls id e).1) =
          rest.countP (isUpdateOk ad s) := by
        apply List.countP_congr
        intro q hq
        rw [isUpdateOk_congr ad _ _ _ (hagree q hq)]
      have hs : rest.countP (isUnchangedEntry (stepResult ad now s stats calls id e).1) =
          rest.countP (isUnchangedEntry s) := by
        apply List.countP_congr
        intro q hq
        rw [isUnchangedEntry_congr _ _ _ (hagree q hq)]
      rw [hc, hu, hs]
      simp [List.countP_cons]
      constructor
      · cases h : isCreateOk ad s (id, e) <;> simp [h, Nat.add_comm, Nat.add_assoc, Nat.add_left_comm]
      constructor
      · cases h : isUpdateOk ad s (id, e) <;> simp [h, Nat.add_comm, Nat.add_assoc, Nat.add_left_comm]
      · cases h : isUnchangedEntry s (id, e) <;> simp [h, Nat.add_comm, Nat.add_assoc, Nat.add_left_comm]

/-- Key-uniqueness of the state survives the loop. -/
theorem processEvents_nodup (ad : Adapter) (now : String) :
    ∀ (l : List (String × Event)) (s : SportSyncState) (stats : Stats)
      (calls : List RemoteCall), (keysOf s.events).Nodup →
      (keysOf (processEvents ad now l s stats calls).1.events).Nodup := by
  intro l
  induction l with
  | nil => intro s stats calls h; exact h
  | cons p rest ih =>
      intro s stats calls h
      obtain ⟨id, e⟩ := p
      rw [processEvents_cons]
      exact ih _ _ _ (stepResult_nodup _ _ _ _ _ _ _ h)

/-- A record present before the loop is still present after it (the loop
never deletes). -/
theorem processEvents_isSome_mono (ad : Adapter) (now : String) :
    ∀ (l : List (String × Event)) (s : SportSyncState) (stats : Stats)
      (calls : List RemoteCall) (k : String), (assocFind s.events k).isSome →
      (assocFind (processEvents ad now l s stats calls).1.events k).isSome := by
  intro l
  induction l with
  | nil => intro s stats calls k h; exact h
  | cons p rest ih =>
      intro s stats calls k h
      obtain ⟨id, e⟩ := p
      rw [processEvents_cons]
      refine ih _ _ _ _ ?_
      by_cases hk : id = k
      · subst hk
        rw [stepResult_find_self]
        revert h
        cases hfind : assocFind s.events id with
        | none => simp
        | some r =>
            intro _
            simp only [entryNewRecord, hfind]
            by_cases hh : r.hash ≠ calculateEventHash e
            · cases hu : ad.update r.googleEventId e <;> simp [hh, hu]
            · simp [hh]
      · rw [stepResult_find_ne _ _ _ _ _ _ _ _ hk]
        exact h

/-- A record present after the loop was present before it or belongs to a
processed entry. -/
theorem processEvents_isSome_inv (ad : Adapter) (now : String) :
    ∀ (l : List (String × Event)) (s : SportSyncState) (stats : Stats)
      (calls : List RemoteCall) (k : String),
      (assocFind (processEvents ad now l s stats calls).1.events k).isSome →
      (assocFind s.events k).isSome ∨ k ∈ keysOf l := by
  intro l
  induction l with
  | nil => intro s stats calls k h; exact Or.inl h
  | cons p rest ih =>
      intro s stats calls k h
      obtain ⟨id, e⟩ := p
      rw [processEvents_cons] at h
      rcases ih _ _ _ _ h with h1 | h1
      · by_cases hk : id = k
        · subst hk
          exact Or.inr (by simp [keysOf])
        · rw [stepResult_find_ne _ _ _ _ _ _ _ _ hk] at h1
          exact Or.inl h1
      · exact Or.inr (by simp [keysOf] at h1 ⊢; exact Or.inr h1)

/-! ### The DELETE loop -/

/-- One step of the DELETE loop, as a value. -/
def deleteStep (ad : Adapter) (localEventsMap : List (String × Event))
    (s : SportSyncState) (stats : Stats) (calls : List RemoteCall)
    (eventId : String) : SportSyncState × Stats × List RemoteCall :=
  if (assocFind localEventsMap eventId).isSome then (s, stats, calls)
  else
    match assocFind s.events eventId with
    | none => (s, stats, calls)
    | some syncData =>
        match ad.delete syncData.googleEventId with
        | Except.ok _ =>
            ({ s with events := assocErase s.events eventId },
             { stats with deleted := stats.deleted + 1 },
             calls ++ [RemoteCall.delete syncData.googleEventId])
        | Except.error _ =>
            (s, stats, calls ++ [RemoteCall.delete syncData.googleEventId])

theorem processDeletes_cons (ad : Adapter) (m : List (String × Event))
    (eventId : String) (rest : List String) (s : SportSyncState)
    (stats : Stats) (calls : List RemoteCall) :
    processDeletes ad m (eventId :: rest) s stats calls =
      processDeletes ad m rest
        (deleteStep ad m s stats calls eventId).1
        (deleteStep ad m s stats calls eventId).2.1
        (deleteStep ad m s stats calls eventId).2.2 := by
  by_cases hm : (assocFind m eventId).isSome
  · simp [processDeletes, deleteStep, hm]
  · cases hfind : assocFind s.events eventId with
    | none => simp [processDeletes, deleteStep, hm, hfind]
    | some r =>
        cases hd : ad.delete r.googleEventId <;>
          simp [processDeletes, deleteStep, hm, hfind, hd]

/-- The record a key carries after its own DELETE step: kept when the key
is still reported locally or the remote delete failed, gone when the
delete succeeded. -/
def deleteOutcome (ad : Adapter) (localEventsMap : List (String × Event))
    (s : SportSyncState) (eventId : String) : Option SyncRecord :=
  if (assocFind localEventsMap eventId).isSome then assocFind s.events eventId
  else
    match assocFind s.events eventId with
    | none => none
    | some r =>
        match ad.delete r.googleEventId with
        | Except.ok _ => none
        | Except.error _ => some r

/-- The call the DELETE loop issues for one key of the snapshot. -/
def deleteDecisionCall (ad : Adapter) (localEventsMap : List (String × Event))
    (s : SportSyncState) (eventId : String) : Option RemoteCall :=
  if (assocFind localEventsMap eventId).isSome then none
  else (assocFind s.events eventId).map
    (fun r => RemoteCall.delete r.googleEventId)

/-- Whether a key's DELETE succeeds. -/
def isDeleteOk (ad : Adapter) (localEventsMap : List (String × Event))
    (s : SportSyncState) (eventId : String) : Bool :=
  if (assocFind localEventsMap eventId).isSome then false
  else
    match assocFind s.events eventId with
    | none => false
    | some r =>
        match ad.delete r.googleEventId with
        | Except.ok _ => true
        | Except.error _ => false

theorem deleteOutcome_congr (ad : Adapter) (m : List (String × Event))
    (s s' : SportSyncState) (k : String)
    (h : assocFind s.events k = assocFind s'.events k) :
    deleteOutcome ad m s k = deleteOutcome ad m s' k := by
  simp [deleteOutcome, h]

theorem deleteDecisionCall_congr (ad : Adapter) (m : List (String × Event))
    (s s' : SportSyncState) (k : String)
    (h : assocFind s.events k = assocFind s'.events k) :
    deleteDecisionCall ad m s k = deleteDecisionCall ad m s' k := by
  simp [deleteDecisionCall, h]

theorem isDeleteOk_congr (ad : Adapter) (m : List (String × Event))
    (s s' : SportSyncState) (k : String)
    (h : assocFind s.events k = assocFind s'.events k) :
    isDeleteOk ad m s k = isDeleteOk ad m s' k := by
  simp [isDeleteOk, h]

theorem deleteStep_find_self (ad : Adapter) (m : List (String × Event))
    (s : SportSyncState) (stats : Stats) (calls : List RemoteCall)
    (eventId : String) :
    assocFind (deleteStep ad m s stats calls eventId).1.events eventId =
      deleteOutcome ad m s eventId := by
  by_cases hm : (assocFind m eventId).isSome
  · simp [deleteStep, deleteOutcome, hm]
  · cases hfind : assocFind s.events eventId with
    | none => simp [deleteStep, deleteOutcome, hm, hfind]
    | some r =>
        cases hd : ad.delete r.googleEventId <;>
          simp [deleteStep, deleteOutcome, hm, hfind, hd,
            assocFind_assocErase_self]

theorem deleteStep_find_ne (ad : Adapter) (m : List (String × Event))
    (s : SportSyncState) (stats : Stats) (calls : List RemoteCall)
    (eventId k : String) (hk : eventId ≠ k) :
    assocFind (deleteStep ad m s stats calls eventId).1.events k =
      assocFind s.events k := by
  by_cases hm : (assocFind m eventId).isSome
  · simp [deleteStep, hm]
  · cases hfind : assocFind s.events eventId with
    | none => simp [deleteStep, hm, hfind]
    | some r =>
        cases hd : ad.delete r.googleEventId <;>
          simp [deleteStep, hm, hfind, hd, assocFind_assocErase_ne _ _ _ hk]

theorem deleteStep_calls (ad : Adapter) (m : List (String × Event))
    (s : SportSyncState) (stats : Stats) (calls : List RemoteCall)
    (eventId : String) :
    (deleteStep ad m s stats calls eventId).2.2 =
      calls ++ (deleteDecisionCall ad m s eventId).toList := by
  by_cases hm : (assocFind m eventId).isSome
  · simp [deleteStep, deleteDecisionCall, hm]
  · cases hfind : assocFind s.events eventId with
    | none => simp [deleteStep, deleteDecisionCall, hm, hfind]
    | some r =>
        cases hd : ad.delete r.googleEventId <;>
          simp [deleteStep, deleteDecisionCall, hm, hfind, hd]

theorem deleteStep_stats (ad : Adapter) (m : List (String × Event))
    (s : SportSyncState) (stats : Stats) (calls : List RemoteCall)
    (eventId : String) :
    (deleteStep ad m s stats calls eventId).2.1 =
      { stats with deleted := stats.deleted +
          (isDeleteOk ad m s eventId).toNat } := by
  by_cases hm : (assocFind m eventId).isSome
  · simp [deleteStep, isDeleteOk, hm]
  · cases hfind : assocFind s.events eventId with
    | none => simp [deleteStep, isDeleteOk, hm, hfind]
    | some r =>
        cases hd : ad.delete r.googleEventId <;>
          simp [deleteStep, isDeleteOk, hm, hfind, hd]

theorem deleteStep_nodup (ad : Adapter) (m : List (String × Event))
    (s : SportSyncState) (stats : Stats) (calls : List RemoteCall)
    (eventId : String) (h : (keysOf s.events).Nodup) :
    (keysOf (deleteStep ad m s stats calls eventId).1.events).Nodup := by
  by_cases hm : (assocFind m eventId).isSome
  · simpa [deleteStep, hm] using h
  · cases hfind : assocFind s.events eventId with
    | none => simpa [deleteStep, hm, hfind] using h
    | some r =>
        cases hd : ad.delete r.googleEventId <;>
          simp [deleteStep, hm, hfind, hd, nodup_keys_assocErase _ _ h, h]

/-- Frame property of the DELETE loop over keys it does not visit. -/
theorem processDeletes_find_of_not_mem (ad : Adapter)
    (m : List (String × Event)) :
    ∀ (ids : List String) (s : SportSyncState) (stats : Stats)
      (calls : List RemoteCall) (k : String), k ∉ ids →
      assocFind (processDeletes ad m ids s stats calls).1.events k =
        assocFind s.events k := by
  intro ids
  induction ids with
  | nil => intro s stats calls k _; rfl
  | cons id rest ih =>
      intro s stats calls k hk
      simp only [List.mem_cons, not_or] at hk
      rw [processDeletes_cons, ih _ _ _ _ hk.2]
      exact deleteStep_find_ne _ _ _ _ _ _ _ (fun h => hk.1 h.symm)

/-- A key the DELETE loop visits ends up at its own delete outcome
(pairwise distinct snapshot keys). -/
theorem processDeletes_find_of_mem (ad : Adapter) (m : List (String × Event)) :
    ∀ (ids : List String) (s : SportSyncState) (stats : Stats)
      (calls : List RemoteCall) (k : String), ids.Nodup → k ∈ ids →
      assocFind (processDeletes ad m ids s stats calls).1.events k =
        deleteOutcome ad m s k := by
  intro ids
  induction ids with
  | nil => intro s stats calls k _ hmem; simp at hmem
  | cons id rest ih =>
      intro s stats calls k hnd hmem
      rw [List.nodup_cons] at hnd
      rw [List.mem_cons] at hmem
      rw [processDeletes_cons]
      rcases hmem with hmem | hmem
      · subst hmem
        rw [processDeletes_find_of_not_mem ad m rest _ _ _ _ hnd.1]
        exact deleteStep_find_self ad m s stats calls k
      · have hne : id ≠ k := fun h => hnd.1 (h ▸ hmem)
        rw [ih _ _ _ _ hnd.2 hmem]
        exact deleteOutcome_congr _ _ _ _ _
          (deleteStep_find_ne _ _ _ _ _ _ _ hne)

/-- The DELETE loop issues exactly the per-key delete decisions. -/
theorem processDeletes_calls_spec (ad : Adapter) (m : List (String × Event)) :
    ∀ (ids : List String) (s : SportSyncState) (stats : Stats)
      (calls : List RemoteCall), ids.Nodup →
      (processDeletes ad m ids s stats calls).2.2 =
        calls ++ ids.filterMap (deleteDecisionCall ad m s) := by
  intro ids
  induction ids with
  | nil => intro s stats calls _; simp [processDeletes]
  | cons id rest ih =>
      intro s stats calls hnd
      rw [List.nodup_cons] at hnd
      rw [processDeletes_cons, ih _ _ _ hnd.2]
      have hcong : rest.filterMap
          (deleteDecisionCall ad m (deleteStep ad m s stats calls id).1) =
          rest.filterMap (deleteDecisionCall ad m s) := by
        apply List.filterMap_congr
        intro q hq
        have hne : id ≠ q := fun h => hnd.1 (h ▸ hq)
        exact deleteDecisionCall_congr _ _ _ _ _
          (deleteStep_find_ne _ _ _ _ _ _ _ hne)
      rw [hcong, deleteStep_calls, List.filterMap_cons]
      cases hd : deleteDecisionCall ad m s id <;> simp [hd]

/-- The DELETE loop increments only the `deleted` counter, once per
successful delete. -/
theorem processDeletes_stats_spec (ad : Adapter) (m : List (String × Event)) :
    ∀ (ids : List String) (s : SportSyncState) (stats : Stats)
      (calls : List RemoteCall), ids.Nodup →
      (processDeletes ad m ids s stats calls).2.1 =
        { stats with deleted := stats.deleted +
            ids.countP (isDeleteOk ad m s) } := by
  intro ids
  induction ids with
  | nil => intro s stats calls _; simp [processDeletes]
  | cons id rest ih =>
      intro s stats calls hnd
      rw [List.nodup_cons] at hnd
      rw [processDeletes_cons, ih _ _ _ hnd.2, deleteStep_stats]
      have hcong : rest.countP
          (isDeleteOk ad m (deleteStep ad m s stats calls id).1) =
          rest.countP (isDeleteOk ad m s) := by
        apply List.countP_congr
        intro q hq
        have hne : id ≠ q := fun h => hnd.1 (h ▸ hq)
        rw [isDeleteOk_congr _ _ _ _ _
          (deleteStep_find_ne _ _ _ _ _ _ _ hne)]
      rw [hcong]
      simp only [List.countP_cons]
      cases h : isDeleteOk ad m s id <;>
        simp [h, Nat.add_comm, Nat.add_assoc, Nat.add_left_comm]

/-- A key with no record stays without one through the DELETE loop. -/
theorem processDeletes_none_mono (ad : Adapter) (m : List (String × Event)) :
    ∀ (ids : List String) (s : SportSyncState) (stats : Stats)
      (calls : List RemoteCall) (k : String), assocFind s.events k = none →
      assocFind (processDeletes ad m ids s stats calls).1.events k = none := by
  intro ids
  induction ids with
  | nil => intro s stats calls k h; exact h
  | cons id rest ih =>
      intro s stats calls k h
      rw [processDeletes_cons]
      refine ih _ _ _ _ ?_
      by_cases hk : id = k
      · subst hk
        rw [deleteStep_find_self]
        simp [deleteOutcome, h]
      · rw [deleteStep_find_ne _ _ _ _ _ _ _ hk]
        exact h

/-! ### The local events map -/

theorem buildLocalEventsMap_nodup_aux :
    ∀ (es : List Event) (acc : List (String × Event)), (keysOf acc).Nodup →
      (keysOf (es.foldl (fun m e => assocSet m e.id e) acc)).Nodup := by
  intro es
  induction es with
  | nil => intro acc h; exact h
  | cons e rest ih =>
      intro acc h
      exact ih _ (nodup_keys_assocSet _ _ _ h)

/-- A JS `Map` never holds a key twice. -/
theorem buildLocalEventsMap_nodup (es : List Event) :
    (keysOf (buildLocalEventsMap es)).Nodup :=
  buildLocalEventsMap_nodup_aux es [] (by simp [keysOf])

theorem assocSet_eq_append {α : Type} (l : List (String × α)) (k : String)
    (v : α) (h : assocFind l k = none) : assocSet l k v = l ++ [(k, v)] := by
  induction l with
  | nil => simp [assocSet]
  | cons p t ih =>
      obtain ⟨k', v'⟩ := p
      by_cases hk : k' = k
      · simp [assocFind, hk] at h
      · simp only [assocFind_cons, if_neg hk] at h
        simp [assocSet, hk, ih h]

theorem buildLocalEventsMap_of_nodup_aux :
    ∀ (es : List Event) (acc : List (String × Event)),
      (∀ e ∈ es, e.id ∉ keysOf acc) → (es.map Event.id).Nodup →
      es.foldl (fun m e => assocSet m e.id e) acc =
        acc ++ es.map (fun e => (e.id, e)) := by
  intro es
  induction es with
  | nil => intro acc _ _; simp
  | cons e rest ih =>
      intro acc hfresh hnd
      simp only [List.map_cons, List.nodup_cons] at hnd
      have hnone : assocFind acc e.id = none :=
        assocFind_eq_none_of_not_mem_keys _ _ (hfresh e (by simp))
      simp only [List.foldl_cons]
      rw [assocSet_eq_append _ _ _ hnone]
      rw [ih _ ?_ hnd.2]
      · simp
      · intro e' he'
        simp only [keysOf, List.map_append, List.map_cons, List.mem_append,
          List.mem_cons, not_or]
        exact ⟨hfresh e' (by simp [he']),
          fun hkeq => hnd.1 (hkeq ▸ List.mem_map_of_mem Event.id he'),
          by simp⟩

/-- With pairwise distinct ids (the spec's precondition on `E`) the local
map lists exactly the events, keyed by id, in order. -/
theorem buildLocalEventsMap_of_nodup (es : List Event)
    (h : (es.map Event.id).Nodup) :
    buildLocalEventsMap es = es.map (fun e => (e.id, e)) := by
  have := buildLocalEventsMap_of_nodup_aux es [] (by simp [keysOf]) h
  simpa [buildLocalEventsMap] using this

/-! ### Converged and all-success passes -/

/-- A SKIP step leaves state, calls, and all other counters untouched. -/
theorem stepResult_skip (ad : Adapter) (now : String) (s : SportSyncState)
    (stats : Stats) (calls : List RemoteCall) (eventId : String)
    (event : Event) (r : SyncRecord) (hfind : assocFind s.events eventId = some r)
    (hh : r.hash = calculateEventHash event) :
    stepResult ad now s stats calls eventId event =
      (s, { stats with unchanged := stats.unchanged + 1 }, calls) := by
  simp [stepResult, hfind, hh]

/-- Over a map whose every entry is already converged, the
CREATE/UPDATE/SKIP loop only counts SKIPs. -/
theorem processEvents_all_skip (ad : Adapter) (now : String) :
    ∀ (l : List (String × Event)) (s : SportSyncState) (stats : Stats)
      (calls : List RemoteCall),
      (∀ p ∈ l, ∃ r, assocFind s.events p.1 = some r ∧
        r.hash = calculateEventHash p.2) →
      processEvents ad now l s stats calls =
        (s, { stats with unchanged := stats.unchanged + l.length }, calls) := by
  intro l
  induction l with
  | nil => intro s stats calls _; simp [processEvents]
  | cons p rest ih =>
      intro s stats calls hconv
      obtain ⟨id, e⟩ := p
      obtain ⟨r, hfind, hh⟩ := hconv (id, e) (by simp)
      rw [processEvents_cons, stepResult_skip ad now s stats calls id e r hfind hh]
      rw [ih _ _ _ (fun q hq => hconv q (List.mem_cons_of_mem _ hq))]
      simp [Nat.add_assoc, Nat.add_comm 1 rest.length]

/-- A skipped DELETE step (the key is still reported locally) is the
identity. -/
theorem deleteStep_skip (ad : Adapter) (m : List (String × Event))
    (s : SportSyncState) (stats : Stats) (calls : List RemoteCall)
    (eventId : String) (h : (assocFind m eventId).isSome) :
    deleteStep ad m s stats calls eventId = (s, stats, calls) := by
  simp [deleteStep, h]

/-- When every snapshot key is still reported locally, the DELETE loop
does nothing. -/
theorem processDeletes_all_skip (ad : Adapter) (m : List (String × Event)) :
    ∀ (ids : List String) (s : SportSyncState) (stats : Stats)
      (calls : List RemoteCall), (∀ id ∈ ids, (assocFind m id).isSome) →
      processDeletes ad m ids s stats calls = (s, stats, calls) := by
  intro ids
  induction ids with
  | nil => intro s stats calls _; simp [processDeletes]
  | cons id rest ih =>
      intro s stats calls hall
      rw [processDeletes_cons, deleteStep_skip ad m s stats calls id
        (hall id (by simp))]
      exact ih _ _ _ (fun q hq => hall q (List.mem_cons_of_mem _ hq))

/-- When every adapter call succeeds, an entry always ends up with a
record whose hash is the event's current hash. -/
theorem entryNewRecord_success (ad : Adapter) (now : String)
    (s : SportSyncState) (p : String × Event)
    (hc : ∀ e, ∃ g, ad.create e = Except.ok g)
    (hu : ∀ g e, ad.update g e = Except.ok ()) :
    ∃ r, entryNewRecord ad now s p = some r ∧
      r.hash = calculateEventHash p.2 := by
  cases hfind : assocFind s.events p.1 with
  | none =>
      obtain ⟨g, hg⟩ := hc p.2
      refine ⟨SyncRecord.mk g now (calculateEventHash p.2), ?_, rfl⟩
      simp [entryNewRecord, hfind, hg]
  | some r =>
      by_cases hh : r.hash ≠ calculateEventHash p.2
      · refine ⟨SyncRecord.mk r.googleEventId now (calculateEventHash p.2),
          ?_, rfl⟩
        simp [entryNewRecord, hfind, hh, hu]
      · simp only [ne_eq, not_not] at hh
        exact ⟨r, by simp [entryNewRecord, hfind, hh], hh⟩

/-- The call of a CREATE/UPDATE/SKIP decision is never a delete. -/
theorem decisionCall_not_delete (ad : Adapter) (s : SportSyncState)
    (p : String × Event) (c : RemoteCall)
    (h : decisionCall ad s p = some c) : ∀ g, c ≠ RemoteCall.delete g := by
  intro g
  cases hfind : assocFind s.events p.1 with
  | none =>
      simp only [decisionCall, hfind] at h
      injection h with h; subst h; simp
  | some r =>
      simp only [decisionCall, hfind] at h
      by_cases hh : r.hash ≠ calculateEventHash p.2
      · rw [if_pos hh] at h; injection h with h; subst h; simp
      · rw [if_neg hh] at h; exact absurd h (by simp)

/-- The call of a DELETE decision is always a delete. -/
theorem deleteDecisionCall_is_delete (ad : Adapter)
    (m : List (String × Event)) (s : SportSyncState) (k : String)
    (c : RemoteCall) (h : deleteDecisionCall ad m s k = some c) :
    ∃ g, c = RemoteCall.delete g := by
  unfold deleteDecisionCall at h
  by_cases hm : (assocFind m k).isSome
  · rw [if_pos hm] at h; exact absurd h (by simp)
  · rw [if_neg hm] at h
    cases hfind : assocFind s.events k with
    | none => rw [hfind] at h; exact absurd h (by simp)
    | some r =>
        rw [hfind] at h
        injection h with h
        exact ⟨r.googleEventId, h.symm⟩

/-! ### The pass, split into its two phases -/

/-- Steps 4-6 of the pass. -/
def passPhase1 (ad : Adapter) (now : String) (localEvents : List Event)
    (s0 : SportSyncState) : SportSyncState × Stats × List RemoteCall :=
  processEvents ad now (buildLocalEventsMap localEvents) s0
    { created := 0, updated := 0, deleted := 0, unchanged := 0 } []

/-- Steps 4-7 of the pass. -/
def passDeletes (ad : Adapter) (now : String) (localEvents : List Event)
    (s0 : SportSyncState) : SportSyncState × Stats × List RemoteCall :=
  let r1 := passPhase1 ad now localEvents s0
  processDeletes ad (buildLocalEventsMap localEvents) (keysOf r1.1.events)
    r1.1 r1.2.1 r1.2.2

theorem syncPass_eq (ad : Adapter) (now : String) (localEvents : List Event)
    (s0 : SportSyncState) :
    syncPass ad now localEvents s0 =
      ({ (passDeletes ad now localEvents s0).1 with
          stats := { totalEvents := localEvents.length, lastUpdate := now } },
       (passDeletes ad now localEvents s0).2.1,
       (passDeletes ad now localEvents s0).2.2) := rfl

/-! ### Gregorian day counting

An independent linearization of dates, used to state that `nextDay`
really is the immediate calendar successor. -/

/-- Days contributed by the months strictly before month `m` of year `y`. -/
def cumDays (y m : Nat) : Nat :=
  ((List.range (m - 1)).map (fun i => daysInMonth y (i + 1))).sum

/-- Days in all years `1..y` of the proleptic Gregorian calendar. -/
def daysInYearsUpTo (y : Nat) : Nat :=
  365 * y + y / 4 - y / 100 + y / 400

/-- Linear position of a calendar date. -/
def toDayNumber : Nat × Nat × Nat → Nat
  | (y, m, d) => daysInYearsUpTo (y - 1) + cumDays y m + d

theorem cumDays_succ (y m : Nat) (hm : 1 ≤ m) :
    cumDays y (m + 1) = cumDays y m + daysInMonth y m := by
  obtain ⟨k, rfl⟩ := Nat.exists_eq_add_of_le hm
  simp only [cumDays]
  rw [show 1 + k + 1 - 1 = k + 1 by omega, show 1 + k - 1 = k by omega]
  rw [List.range_succ]
  simp [Nat.add_comm 1 k]

theorem cumDays_12_add (y : Nat) :
    cumDays y 12 + daysInMonth y 12 = if isLeapYear y then 366 else 365 := by
  by_cases hl : isLeapYear y <;>
    simp [cumDays, daysInMonth, hl, List.range_succ]

set_option maxHeartbeats 1000000 in
theorem daysInYearsUpTo_succ (y : Nat) :
    daysInYearsUpTo (y + 1) =
      daysInYearsUpTo y + (if isLeapYear (y + 1) then 366 else 365) := by
  have hiff : isLeapYear (y + 1) = true ↔
      (((y + 1) % 4 = 0 ∧ ¬(y + 1) % 100 = 0) ∨ (y + 1) % 400 = 0) := by
    simp [isLeapYear]
  by_cases hl : isLeapYear (y + 1) = true
  · rw [if_pos hl]
    rw [hiff] at hl
    unfold daysInYearsUpTo
    omega
  · rw [if_neg hl]
    rw [hiff] at hl
    push_neg at hl
    unfold daysInYearsUpTo
    omega

/-- `nextDay` advances the linear day position by exactly one. -/
theorem toDayNumber_nextDay (y m d : Nat) (hy : 1 ≤ y) (hm1 : 1 ≤ m)
    (hm2 : m ≤ 12) (hd1 : 1 ≤ d) (hd2 : d ≤ daysInMonth y m) :
    toDayNumber (nextDay (y, m, d)) = toDayNumber (y, m, d) + 1 := by
  by_cases hlt : d < daysInMonth y m
  · simp only [nextDay, if_pos hlt, toDayNumber]
    omega
  · have hdeq : d = daysInMonth y m := Nat.le_antisymm hd2 (Nat.not_lt.mp hlt)
    by_cases hm12 : m < 12
    · simp only [nextDay, if_neg hlt, if_pos hm12, toDayNumber]
      rw [cumDays_succ y m hm1]
      omega
    · have hmeq : m = 12 := by omega
      subst hmeq
      simp only [nextDay, if_neg hlt, if_neg hm12, toDayNumber]
      have h1 : cumDays (y + 1) 1 = 0 := by simp [cumDays]
      have h2 : cumDays y 12 + daysInMonth y 12 =
          if isLeapYear y then 366 else 365 := cumDays_12_add y
      obtain ⟨z, rfl⟩ := Nat.exists_eq_add_of_le hy
      have h3 : daysInYearsUpTo (1 + z) =
          daysInYearsUpTo z + (if isLeapYear (1 + z) then 366 else 365) := by
        rw [Nat.add_comm 1 z]
        exact daysInYearsUpTo_succ z
      rw [h1]
      rw [show 1 + z + 1 - 1 = 1 + z by omega, show 1 + z - 1 = z by omega]
      rw [h3]
      by_cases hl : isLeapYear (1 + z) <;> simp [hl] at h2 ⊢ <;> omega

/-- A parsed date has in-range components. -/
theorem parseYMD_bounds (s : String) (y m d : Nat)
    (h : parseYMD s = some (y, m, d)) :
    1 ≤ m ∧ m ≤ 12 ∧ 1 ≤ d ∧ d ≤ daysInMonth y m := by
  unfold parseYMD at h
  split at h
  · split at h
    · split at h
      · split at h
        · rename_i hbounds
          injection h with h
          simp only [Prod.mk.injEq] at h
          obtain ⟨rfl, rfl, rfl⟩ := h
          exact hbounds
        · exact absurd h (by simp)
      · exact absurd h (by simp)
    · exact absurd h (by simp)
  · exact absurd h (by simp)

/-! ## Verified properties -/

/-- C8: when no persisted sync-state document exists (`ENOENT`),
`loadSyncState` returns the well-defined empty default — `version` set to
`"1.0"`, `lastSync` null, empty per-source map — without raising; a
successful read is returned as-is, and any read failure other than the
document being absent is propagated to the caller. -/
theorem loadSyncState_bootstrap :
    (loadSyncState (Except.error FsError.enoent) =
      Except.ok { version := "1.0", lastSync := none, sports := [] }) ∧
    (∀ st : SyncState, loadSyncState (Except.ok st) = Except.ok st) ∧
    (∀ code : String, loadSyncState (Except.error (FsError.other code)) =
      Except.error (FsError.other code)) :=
  ⟨rfl, fun _ => rfl, fun _ => rfl⟩

/-- C10: `calculateEventHash` replaces every absent projected scalar
field (name, dateStart, dateEnd, category, level, prize, url) with the
empty string before digesting, so an absent field and an empty-string
field hash identically; the absent-location default is the empty object
`{}`, which is not the serialization of the empty string. -/
theorem calculateEventHash_absent_field_defaults :
    (∀ e : Event, calculateEventHash { e with name := none } =
      calculateEventHash { e with name := some "" }) ∧
    (∀ e : Event, calculateEventHash { e with dateStart := none } =
      calculateEventHash { e with dateStart := some "" }) ∧
    (∀ e : Event, calculateEventHash { e with dateEnd := none } =
      calculateEventHash { e with dateEnd := some "" }) ∧
    (∀ e : Event, calculateEventHash { e with category := none } =
      calculateEventHash { e with category := some "" }) ∧
    (∀ e : Event, calculateEventHash { e with level := none } =
      calculateEventHash { e with level := some "" }) ∧
    (∀ e : Event, calculateEventHash { e with prize := none } =
      calculateEventHash { e with prize := some "" }) ∧
    (∀ e : Event, calculateEventHash { e with url := none } =
      calculateEventHash { e with url := some "" }) ∧
    (∀ e : Event, calculateEventHash { e with location := none } =
      calculateEventHash { e with location := some [] }) ∧
    jsonLocation none = "\x7b\x7d" ∧
    jsonLocation none ≠ jsonString "" := by
  refine ⟨fun e => rfl, fun e => rfl, fun e => rfl, fun e => rfl, fun e => rfl,
    fun e => rfl, fun e => rfl, fun e => rfl, rfl, by decide⟩

/-- C4 counterexample: two events identical except for the insertion
order of the fields inside the `location` sub-object hash differently —
`calculateEventHash` sorts only the top-level projection keys, while
`JSON.stringify` serializes the location object in its own key order.
This refutes invariance under reordering inside projected sub-objects. -/
theorem calculateEventHash_location_order_sensitive :
    calculateEventHash
      { id := "A", name := some "X", dateStart := some "2025-01-07",
        dateEnd := some "2025-01-12",
        location := some [("city", "T"), ("country", "J")],
        category := none, level := none, prize := none, url := none,
        description := none, source := none, lastUpdated := none } ≠
    calculateEventHash
      { id := "A", name := some "X", dateStart := some "2025-01-07",
        dateEnd := some "2025-01-12",
        location := some [("country", "J"), ("city", "T")],
        category := none, level := none, prize := none, url := none,
        description := none, source := none, lastUpdated := none } := by
  decide

/-- Equality of the eight projected fields of `calculateEventHash`
(the location compared as the ordered field list it serializes as). -/
def hashProjectionEq (e1 e2 : Event) : Prop :=
  e1.name = e2.name ∧ e1.dateStart = e2.dateStart ∧
  e1.dateEnd = e2.dateEnd ∧ e1.location = e2.location ∧
  e1.category = e2.category ∧ e1.level = e2.level ∧
  e1.prize = e2.prize ∧ e1.url = e2.url

/-- C4 (amended): the content hash is a pure function of the eight
projected fields alone — in particular two events differing only in the
excluded bookkeeping fields `description`, `lastUpdated` or `source`
hash equal, and the hash is independent of any ordering of the event's
top-level fields since the projection's keys are serialized in sorted
order — but it is NOT invariant to the field order inside the `location`
sub-object, which is serialized as given. -/
theorem calculateEventHash_pure_projection (e1 e2 : Event)
    (h : hashProjectionEq e1 e2) :
    calculateEventHash e1 = calculateEventHash e2 := by
  obtain ⟨h1, h2, h3, h4, h5, h6, h7, h8⟩ := h
  simp [calculateEventHash, hashInput, hashFieldsList, h1, h2, h3, h4, h5,
    h6, h7, h8]

/-- Two sample events differing only in the excluded bookkeeping fields. -/
def bwfEventA : Event :=
  { id := "bwf-2025-01", name := some "Malaysia Open",
    dateStart := some "2025-01-07T00:00:00.000Z",
    dateEnd := some "2025-01-12T00:00:00.000Z",
    location := some [("city", "Kuala Lumpur"), ("country", "Malaysia"),
      ("venue", "Axiata Arena")],
    category := some "BWF World Tour", level := some "Super 1000",
    prize := some "USD 1,350,000", url := some "https://example.org/mo",
    description := some "old description", source := some "BWF",
    lastUpdated := some "2025-01-01T00:00:00.000Z" }

def bwfEventA' : Event :=
  { bwfEventA with
    description := some "fresh description",
    source := some "bwf-v2",
    lastUpdated := some "2025-02-01T00:00:00.000Z" }

theorem calculateEventHash_pure_projection_witness :
    hashProjectionEq bwfEventA bwfEventA' ∧
    calculateEventHash bwfEventA = calculateEventHash bwfEventA' :=
  ⟨⟨rfl, rfl, rfl, rfl, rfl, rfl, rfl, rfl⟩,
    calculateEventHash_pure_projection bwfEventA bwfEventA'
      ⟨rfl, rfl, rfl, rfl, rfl, rfl, rfl, rfl⟩⟩

/-- C9: for every event whose payload `buildEventData` can build, the
all-day range sent to the remote adapter is `[d1, d2 + 1 day)`: the
`start.date` is the calendar-date part of `dateStart`, and the
`end.date` is the calendar day immediately after the date part of
`dateEnd` — one day added in UTC, `nextDay` advancing the linear day
number by exactly one. -/
theorem buildEventData_allday_range (e : Event) (ds de : String)
    (y m d : Nat) (hs : e.dateStart = some ds) (he : e.dateEnd = some de)
    (hparse : parseYMD (datePart de) = some (y, m, d)) (hy : 1 ≤ y) :
    ∃ g, buildEventData e = some g ∧
      g.start.date = datePart ds ∧
      g.«end».date = formatYMD (nextDay (y, m, d)) ∧
      toDayNumber (nextDay (y, m, d)) = toDayNumber (y, m, d) + 1 := by
  obtain ⟨hm1, hm2, hd1, hd2⟩ := parseYMD_bounds _ y m d hparse
  have hbuild : buildEventData e = some
      { summary := e.name,
        location := formatLocation e.location,
        description := e.description.getD "",
        start := { date := datePart ds, timeZone := "UTC" },
        «end» := { date := formatYMD (nextDay (y, m, d)), timeZone := "UTC" },
        transparency := "transparent",
        visibility := "public",
        source := { title := (e.source.getD "undefined") ++ " Calendar",
                    url := e.url.getD "" } } := by
    simp [buildEventData, hs, he, formatDate, hparse]
  exact ⟨_, hbuild, rfl, rfl, toDayNumber_nextDay y m d hy hm1 hm2 hd1 hd2⟩

theorem buildEventData_allday_range_witness :
    bwfEventA.dateStart = some "2025-01-07T00:00:00.000Z" ∧
    bwfEventA.dateEnd = some "2025-01-12T00:00:00.000Z" ∧
    parseYMD (datePart "2025-01-12T00:00:00.000Z") = some (2025, 1, 12) ∧
    (∃ g, buildEventData bwfEventA = some g ∧
      g.start.date = datePart "2025-01-07T00:00:00.000Z" ∧
      g.«end».date = formatYMD (nextDay (2025, 1, 12)) ∧
      toDayNumber (nextDay (2025, 1, 12)) = toDayNumber (2025, 1, 12) + 1) :=
  ⟨rfl, rfl, by decide,
    buildEventData_allday_range bwfEventA _ _ 2025 1 12 rfl rfl (by decide)
      (by decide)⟩

/-- C1: the per-event decision of a reconciliation pass, for every entry
of the local map (ids pairwise distinct): no sync record → a CREATE call;
record present with `hash(e)` equal to the stored content hash → SKIP,
contributing no remote adapter call and leaving the record as it is;
record present with a differing hash → an UPDATE call addressed to the
record's stored remote id.  The loop issues exactly these per-event
decisions, in map order. -/
theorem reconciler_per_event_decision (ad : Adapter) (now : String)
    (l : List (String × Event)) (s : SportSyncState) (stats : Stats)
    (calls : List RemoteCall) (hnd : (keysOf l).Nodup)
    (eventId : String) (event : Event) :
    (assocFind s.events eventId = none →
      decisionCall ad s (eventId, event) = some (RemoteCall.create event)) ∧
    (∀ r, assocFind s.events eventId = some r →
      r.hash = calculateEventHash event →
      decisionCall ad s (eventId, event) = none ∧
      entryNewRecord ad now s (eventId, event) = some r) ∧
    (∀ r, assocFind s.events eventId = some r →
      r.hash ≠ calculateEventHash event →
      decisionCall ad s (eventId, event) =
        some (RemoteCall.update r.googleEventId event)) ∧
    (processEvents ad now l s stats calls).2.2 =
      calls ++ l.filterMap (decisionCall ad s) := by
  refine ⟨?_, ?_, ?_, processEvents_calls_spec ad now l s stats calls hnd⟩
  · intro h
    simp [decisionCall, h]
  · intro r hr hh
    constructor
    · simp [decisionCall, hr, hh]
    · simp [entryNewRecord, hr, hh]
  · intro r hr hh
    simp [decisionCall, hr, hh]

/-- Fixtures for concrete instantiations. -/
def okAdapter : Adapter :=
  { create := fun e => Except.ok ("g-" ++ e.id),
    update := fun _ _ => Except.ok (),
    delete := fun _ => Except.ok () }

def recordA : SyncRecord := { googleEventId := "gA", lastSynced := "t0", hash := "hA" }

def sampleSport : SportSyncState :=
  { calendarId := "cal", events := [("A", recordA)], stats := ⟨1, "t0"⟩ }

theorem reconciler_per_event_decision_witness :
    ((assocFind sampleSport.events "B" = none →
      decisionCall okAdapter sampleSport ("B", bwfEventA) =
        some (RemoteCall.create bwfEventA)) ∧
     (∀ r, assocFind sampleSport.events "B" = some r →
      r.hash = calculateEventHash bwfEventA →
      decisionCall okAdapter sampleSport ("B", bwfEventA) = none ∧
      entryNewRecord okAdapter "t1" sampleSport ("B", bwfEventA) = some r) ∧
     (∀ r, assocFind sampleSport.events "B" = some r →
      r.hash ≠ calculateEventHash bwfEventA →
      decisionCall okAdapter sampleSport ("B", bwfEventA) =
        some (RemoteCall.update r.googleEventId bwfEventA)) ∧
     (processEvents okAdapter "t1" [("B", bwfEventA)] sampleSport
        ⟨0, 0, 0, 0⟩ []).2.2 =
      [] ++ [("B", bwfEventA)].filterMap (decisionCall okAdapter sampleSport)) :=
  reconciler_per_event_decision okAdapter "t1" [("B", bwfEventA)] sampleSport
    ⟨0, 0, 0, 0⟩ [] (by decide) "B" bwfEventA

/-! ### Repair-pass helpers -/

theorem repairLoop_sublist (getEvent : String → Option Nat) :
    ∀ l : List (String × SyncRecord),
      List.Sublist (repairLoop getEvent l).1 l := by
  intro l
  induction l with
  | nil => simp [repairLoop]
  | cons p rest ih =>
      obtain ⟨id, r⟩ := p
      simp only [repairLoop]
      cases hg : getEvent r.googleEventId with
      | none => exact ih.cons₂ _
      | some code =>
          by_cases hc : code = 404
          · simp only [if_pos hc]
            exact ih.trans (List.sublist_cons_self _ _)
          · simp only [if_neg hc]
            exact ih.cons₂ _

theorem assocFind_eq_none_of_sublist {α : Type} (l' l : List (String × α))
    (hsub : List.Sublist l' l) (k : String) (h : assocFind l k = none) :
    assocFind l' k = none := by
  apply assocFind_eq_none_of_not_mem_keys
  intro hmem
  have hk : k ∈ keysOf l := (hsub.map Prod.fst).subset hmem
  have := assocFind_isSome_of_mem_keys l k hk
  simp [h] at this

theorem repairLoop_count (getEvent : String → Option Nat) :
    ∀ l : List (String × SyncRecord),
      (repairLoop getEvent l).2 =
        l.countP (fun p => getEvent p.2.googleEventId == some 404) := by
  intro l
  induction l with
  | nil => simp [repairLoop]
  | cons p rest ih =>
      obtain ⟨id, r⟩ := p
      simp only [repairLoop, List.countP_cons]
      cases hg : getEvent r.googleEventId with
      | none => simp [ih]
      | some code =>
          by_cases hc : code = 404
          · subst hc
            simp [ih]
          · simp [ih, hc]

theorem repairLoop_find (getEvent : String → Option Nat) :
    ∀ (l : List (String × SyncRecord)) (id : String) (r : SyncRecord),
      (keysOf l).Nodup → assocFind l id = some r →
      assocFind (repairLoop getEvent l).1 id =
        (if getEvent r.googleEventId = some 404 then none else some r) := by
  intro l
  induction l with
  | nil => intro id r _ h; simp [assocFind] at h
  | cons p rest ih =>
      intro id r hnd h
      obtain ⟨k, r0⟩ := p
      simp only [keysOf, List.map_cons, List.nodup_cons] at hnd
      by_cases hk : k = id
      · subst hk
        rw [assocFind_cons, if_pos rfl] at h
        injection h with h
        subst h
        have hnone : assocFind rest k = none :=
          assocFind_eq_none_of_not_mem_keys _ _ hnd.1
        simp only [repairLoop]
        cases hg : getEvent r0.googleEventId with
        | none => simp
        | some code =>
            by_cases hc : code = 404
            · subst hc
              simp only [if_pos rfl]
              exact assocFind_eq_none_of_sublist _ _
                (repairLoop_sublist getEvent rest) _ hnone
            · simp [hc]
      · rw [assocFind_cons, if_neg hk] at h
        simp only [repairLoop]
        cases hg : getEvent r0.googleEventId with
        | none => simpa [hk] using ih id r hnd.2 h
        | some code =>
            by_cases hc : code = 404
            · simp only [if_pos hc]
              exact ih id r hnd.2 h
            · simpa [hc, hk] using ih id r hnd.2 h

/-- C6: during a repair pass a sync record is purged exactly when the
remote existence check fails with the definitive not-found code 404; a
successful check, or a failure with any other code (timeout, transport,
auth), leaves the record in place unchanged; the result reports the
number purged and the total number of records examined. -/
theorem repairSyncState_conservative (getEvent : String → Option Nat)
    (st : SyncState) (sportId : String) (sport : SportSyncState)
    (hfind : assocFind st.sports sportId = some sport)
    (hnd : (keysOf sport.events).Nodup) :
    (repairSyncState getEvent st sportId).2.2 = sport.events.length ∧
    (repairSyncState getEvent st sportId).2.1 =
      sport.events.countP (fun p => getEvent p.2.googleEventId == some 404) ∧
    (∃ sport',
      assocFind (repairSyncState getEvent st sportId).1.sports sportId =
        some sport' ∧
      ∀ id r, assocFind sport.events id = some r →
        assocFind sport'.events id =
          (if getEvent r.googleEventId = some 404 then none else some r)) := by
  refine ⟨?_, ?_, ?_⟩
  · simp [repairSyncState, hfind, keysOf]
  · simp [repairSyncState, hfind, repairLoop_count]
  · refine ⟨{ sport with events := (repairLoop getEvent sport.events).1 }, ?_, ?_⟩
    · simp [repairSyncState, hfind, assocFind_assocSet_self]
    · intro id r hr
      exact repairLoop_find getEvent sport.events id r hnd hr

/-- An existence oracle that answers 404 for `gA` and a transient 500
for everything else. -/
def repairGet : String → Option Nat :=
  fun g => if g = "gA" then some 404 else some 500

def recordB : SyncRecord := { googleEventId := "gB", lastSynced := "t0", hash := "hB" }

def repairSport : SportSyncState :=
  { calendarId := "cal", events := [("A", recordA), ("B", recordB)],
    stats := ⟨2, "t0"⟩ }

def repairState : SyncState :=
  { version := "1.0", lastSync := none, sports := [("bwf", repairSport)] }

theorem repairSyncState_conservative_witness :
    ((repairSyncState repairGet repairState "bwf").2.2 =
      repairSport.events.length ∧
     (repairSyncState repairGet repairState "bwf").2.1 =
      repairSport.events.countP
        (fun p => repairGet p.2.googleEventId == some 404) ∧
     (∃ sport',
        assocFind (repairSyncState repairGet repairState "bwf").1.sports
          "bwf" = some sport' ∧
        ∀ id r, assocFind repairSport.events id = some r →
          assocFind sport'.events id =
            (if repairGet r.googleEventId = some 404 then none
             else some r))) :=
  repairSyncState_conservative repairGet repairState "bwf" repairSport
    (by decide) (by decide)

/-! ### Whole-pass characterizations -/

theorem passDeletes_eq (ad : Adapter) (now : String) (localEvents : List Event)
    (s0 : SportSyncState) :
    passDeletes ad now localEvents s0 =
      processDeletes ad (buildLocalEventsMap localEvents)
        (keysOf (passPhase1 ad now localEvents s0).1.events)
        (passPhase1 ad now localEvents s0).1
        (passPhase1 ad now localEvents s0).2.1
        (passPhase1 ad now localEvents s0).2.2 := rfl

/-- A full pass issues first the CREATE/UPDATE decisions of the local map
against the initial state, then the DELETE decisions of the post-phase-1
key snapshot. -/
theorem syncPass_calls_split (ad : Adapter) (now : String)
    (localEvents : List Event) (s0 : SportSyncState)
    (hnd0 : (keysOf s0.events).Nodup) :
    (syncPass ad now localEvents s0).2.2 =
      (buildLocalEventsMap localEvents).filterMap (decisionCall ad s0) ++
      (keysOf (passPhase1 ad now localEvents s0).1.events).filterMap
        (deleteDecisionCall ad (buildLocalEventsMap localEvents)
          (passPhase1 ad now localEvents s0).1) := by
  have hmnd := buildLocalEventsMap_nodup localEvents
  have hids : (keysOf (passPhase1 ad now localEvents s0).1.events).Nodup :=
    processEvents_nodup ad now _ s0 _ _ hnd0
  have h1 : (passPhase1 ad now localEvents s0).2.2 =
      [] ++ (buildLocalEventsMap localEvents).filterMap (decisionCall ad s0) :=
    processEvents_calls_spec ad now _ s0 _ _ hmnd
  rw [syncPass_eq, passDeletes_eq]
  rw [processDeletes_calls_spec ad _ _ _ _ _ hids, h1]
  simp

/-- The four counters a full pass reports: successful CREATEs, successful
UPDATEs, SKIPs (counted against the initial state) and successful
DELETEs (counted against the post-phase-1 state). -/
theorem syncPass_stats_counts (ad : Adapter) (now : String)
    (localEvents : List Event) (s0 : SportSyncState)
    (hnd0 : (keysOf s0.events).Nodup) :
    (syncPass ad now localEvents s0).2.1 =
      { created := (buildLocalEventsMap localEvents).countP
          (isCreateOk ad s0),
        updated := (buildLocalEventsMap localEvents).countP
          (isUpdateOk ad s0),
        deleted := (keysOf (passPhase1 ad now localEvents s0).1.events).countP
          (isDeleteOk ad (buildLocalEventsMap localEvents)
            (passPhase1 ad now localEvents s0).1),
        unchanged := (buildLocalEventsMap localEvents).countP
          (isUnchangedEntry s0) } := by
  have hmnd := buildLocalEventsMap_nodup localEvents
  have hids : (keysOf (passPhase1 ad now localEvents s0).1.events).Nodup :=
    processEvents_nodup ad now _ s0 _ _ hnd0
  have h1 : (passPhase1 ad now localEvents s0).2.1 =
      { created := 0 + (buildLocalEventsMap localEvents).countP
          (isCreateOk ad s0),
        updated := 0 + (buildLocalEventsMap localEvents).countP
          (isUpdateOk ad s0),
        deleted := 0,
        unchanged := 0 + (buildLocalEventsMap localEvents).countP
          (isUnchangedEntry s0) } :=
    processEvents_stats_spec ad now _ s0 _ _ hmnd
  rw [syncPass_eq, passDeletes_eq]
  rw [processDeletes_stats_spec ad _ _ _ _ _ hids, h1]
  simp

/-- C2: a failed CREATE leaves the absent record absent, a failed UPDATE
leaves the record — its stored hash and remote id — unchanged, and a
failed DELETE leaves the record present: in each case the state is
exactly its prior value and the counters do not move; consequently,
re-running over a map whose entries are each either absent (previous
CREATE failed) or converged (previously synced) issues CREATE calls for
exactly the absent entries and counts every converged entry unchanged,
with no remote call for it. -/
theorem failed_operation_preserves_state (ad : Adapter) (now : String) :
    (∀ (s : SportSyncState) (stats : Stats) (calls : List RemoteCall)
      (id : String) (e : Event) (msg : String),
      assocFind s.events id = none → ad.create e = Except.error msg →
      processEvents ad now [(id, e)] s stats calls =
        (s, stats, calls ++ [RemoteCall.create e])) ∧
    (∀ (s : SportSyncState) (stats : Stats) (calls : List RemoteCall)
      (id : String) (e : Event) (r : SyncRecord) (msg : String),
      assocFind s.events id = some r → r.hash ≠ calculateEventHash e →
      ad.update r.googleEventId e = Except.error msg →
      processEvents ad now [(id, e)] s stats calls =
        (s, stats, calls ++ [RemoteCall.update r.googleEventId e])) ∧
    (∀ (m : List (String × Event)) (s : SportSyncState) (stats : Stats)
      (calls : List RemoteCall) (id : String) (r : SyncRecord) (msg : String),
      assocFind m id = none → assocFind s.events id = some r →
      ad.delete r.googleEventId = Except.error msg →
      processDeletes ad m [id] s stats calls =
        (s, stats, calls ++ [RemoteCall.delete r.googleEventId])) ∧
    (∀ (l : List (String × Event)) (s : SportSyncState) (stats : Stats)
      (calls : List RemoteCall), (keysOf l).Nodup →
      (∀ p ∈ l, assocFind s.events p.1 = none ∨
        ∃ r, assocFind s.events p.1 = some r ∧
          r.hash = calculateEventHash p.2) →
      (processEvents ad now l s stats calls).2.2 =
        calls ++ (l.filter (fun p => (assocFind s.events p.1).isNone)).map
          (fun p => RemoteCall.create p.2) ∧
      (processEvents ad now l s stats calls).2.1.unchanged =
        stats.unchanged +
          l.countP (fun p => (assocFind s.events p.1).isSome)) := by
  refine ⟨?_, ?_, ?_, ?_⟩
  · intro s stats calls id e msg hfind hc
    simp [processEvents, hfind, hc]
  · intro s stats calls id e r msg hfind hh hupd
    simp [processEvents, hfind, hh, hupd]
  · intro m s stats calls id r msg hm hfind hdel
    have hm' : (assocFind m id).isSome = false := by simp [hm]
    simp [processDeletes, hm', hfind, hdel]
  · intro l s stats calls hnd hprev
    constructor
    · rw [processEvents_calls_spec ad now l s stats calls hnd]
      congr 1
      induction l with
      | nil => simp
      | cons p rest ih =>
          have hrest := fun q hq => hprev q (List.mem_cons_of_mem _ hq)
          rcases hprev p (by simp) with hab | ⟨r, hr, hh⟩
          · simp only [List.filterMap_cons, List.filter_cons, hab,
              Option.isNone_none, decisionCall]
            simp [ih (List.Nodup.of_cons (by simpa [keysOf] using hnd))
              hrest, decisionCall, hab]
          · have hnn : r.hash ≠ calculateEventHash p.2 ↔ False := by simp [hh]
            simp only [List.filterMap_cons, List.filter_cons]
            simp [decisionCall, hr, hh,
              ih (List.Nodup.of_cons (by simpa [keysOf] using hnd)) hrest]
    · rw [processEvents_stats_spec ad now l s stats calls hnd]
      have : l.countP (isUnchangedEntry s) =
          l.countP (fun p => (assocFind s.events p.1).isSome) := by
        apply List.countP_congr
        intro p hp
        rcases hprev p hp with hab | ⟨r, hr, hh⟩
        · simp [isUnchangedEntry, hab]
        · simp [isUnchangedEntry, hr, hh]
      simp [this]

/-- A record converged on `bwfEventA`. -/
def convergedRecordA : SyncRecord :=
  { googleEventId := "gA", lastSynced := "t0",
    hash := calculateEventHash bwfEventA }

def convergedSport : SportSyncState :=
  { calendarId := "cal", events := [("A", convergedRecordA)],
    stats := ⟨1, "t0"⟩ }

/-- An adapter whose every call throws. -/
def failAdapter : Adapter :=
  { create := fun _ => Except.error "boom",
    update := fun _ _ => Except.error "boom",
    delete := fun _ => Except.error "boom" }

theorem failed_operation_preserves_state_witness :
    (processEvents failAdapter "t1" [("B", bwfEventA')] sampleSport
        ⟨0, 0, 0, 0⟩ [] =
      (sampleSport, ⟨0, 0, 0, 0⟩, [] ++ [RemoteCall.create bwfEventA'])) ∧
    (processEvents failAdapter "t1" [("A", bwfEventA)] sampleSport
        ⟨0, 0, 0, 0⟩ [] =
      (sampleSport, ⟨0, 0, 0, 0⟩,
        [] ++ [RemoteCall.update recordA.googleEventId bwfEventA])) ∧
    (processDeletes failAdapter [] ["A"] sampleSport ⟨0, 0, 0, 0⟩ [] =
      (sampleSport, ⟨0, 0, 0, 0⟩,
        [] ++ [RemoteCall.delete recordA.googleEventId])) ∧
    ((processEvents failAdapter "t1" [("A", bwfEventA), ("B", bwfEventA')]
        convergedSport ⟨0, 0, 0, 0⟩ []).2.2 =
      [] ++ (([("A", bwfEventA), ("B", bwfEventA')].filter
          (fun p => (assocFind convergedSport.events p.1).isNone)).map
        (fun p => RemoteCall.create p.2)) ∧
     (processEvents failAdapter "t1" [("A", bwfEventA), ("B", bwfEventA')]
        convergedSport ⟨0, 0, 0, 0⟩ []).2.1.unchanged =
      (0 : Nat) + [("A", bwfEventA), ("B", bwfEventA')].countP
        (fun p => (assocFind convergedSport.events p.1).isSome)) := by
  refine ⟨?_, ?_, ?_, ?_⟩
  · exact (failed_operation_preserves_state failAdapter "t1").1
      sampleSport ⟨0, 0, 0, 0⟩ [] "B" bwfEventA' "boom" (by decide) rfl
  · exact (failed_operation_preserves_state failAdapter "t1").2.1
      sampleSport ⟨0, 0, 0, 0⟩ [] "A" bwfEventA recordA "boom" (by decide)
      (by decide) rfl
  · exact (failed_operation_preserves_state failAdapter "t1").2.2.1
      [] sampleSport ⟨0, 0, 0, 0⟩ [] "A" recordA "boom" rfl (by decide) rfl
  · exact (failed_operation_preserves_state failAdapter "t1").2.2.2
      [("A", bwfEventA), ("B", bwfEventA')] convergedSport ⟨0, 0, 0, 0⟩ []
      (by decide)
      (by
        intro p hp
        rcases List.mem_cons.mp hp with rfl | hp
        · exact Or.inr ⟨convergedRecordA, rfl, rfl⟩
        · rcases List.mem_cons.mp hp with rfl | hp
          · exact Or.inl rfl
          · simp at hp)

/-- Two fresh events and an adapter that throws for event B only. -/
def eventB : Event := { bwfEventA with id := "B", name := some "Event B" }

def eventC : Event := { bwfEventA with id := "C", name := some "Event C" }

def failBAdapter : Adapter :=
  { create := fun e =>
      if e.id = "B" then Except.error "boom" else Except.ok ("g-" ++ e.id),
    update := fun _ _ => Except.ok (),
    delete := fun _ => Except.ok () }

def emptySport : SportSyncState :=
  { calendarId := "cal", events := [], stats := ⟨0, "t0"⟩ }

/-- C3 counterexample: the pass-level result has no `failed` count.  In a
pass over `[B, C]` where the adapter's create throws for B and succeeds
for C, the returned statistics are `{created := 1, updated := 0,
deleted := 0, unchanged := 0}` — exactly the statistics of the pass over
`[C]` alone, so the throwing event is not reported in any count of the
result. -/
theorem syncPass_reports_no_failed_count :
    (syncPass failBAdapter "t1" [eventB, eventC] emptySport).2.1 =
      (syncPass failBAdapter "t1" [eventC] emptySport).2.1 ∧
    (syncPass failBAdapter "t1" [eventB, eventC] emptySport).2.1 =
      { created := 1, updated := 0, deleted := 0, unchanged := 0 } :=
  ⟨rfl, rfl⟩

/-- C3 (amended): a reconciliation pass never aborts the remaining
events because the adapter failed for one event — the pass issues the
decision call of every entry and of every orphaned key, independent of
other entries' failures — and its pass-level result aggregates exactly
the four counts {created, updated, unchanged, deleted} of the successful
operations; a failed call increments none of them, and failures are only
logged, not reported in the result. -/
theorem syncPass_failure_isolation (ad : Adapter) (now : String)
    (localEvents : List Event) (s0 : SportSyncState)
    (hnd0 : (keysOf s0.events).Nodup) :
    (syncPass ad now localEvents s0).2.2 =
      (buildLocalEventsMap localEvents).filterMap (decisionCall ad s0) ++
      (keysOf (passPhase1 ad now localEvents s0).1.events).filterMap
        (deleteDecisionCall ad (buildLocalEventsMap localEvents)
          (passPhase1 ad now localEvents s0).1) ∧
    (syncPass ad now localEvents s0).2.1 =
      { created := (buildLocalEventsMap localEvents).countP
          (isCreateOk ad s0),
        updated := (buildLocalEventsMap localEvents).countP
          (isUpdateOk ad s0),
        deleted := (keysOf (passPhase1 ad now localEvents s0).1.events).countP
          (isDeleteOk ad (buildLocalEventsMap localEvents)
            (passPhase1 ad now localEvents s0).1),
        unchanged := (buildLocalEventsMap localEvents).countP
          (isUnchangedEntry s0) } :=
  ⟨syncPass_calls_split ad now localEvents s0 hnd0,
   syncPass_stats_counts ad now localEvents s0 hnd0⟩

theorem syncPass_failure_isolation_witness :
    ((syncPass failBAdapter "t1" [eventB, eventC] emptySport).2.2 =
      (buildLocalEventsMap [eventB, eventC]).filterMap
        (decisionCall failBAdapter emptySport) ++
      (keysOf (passPhase1 failBAdapter "t1" [eventB, eventC]
          emptySport).1.events).filterMap
        (deleteDecisionCall failBAdapter (buildLocalEventsMap [eventB, eventC])
          (passPhase1 failBAdapter "t1" [eventB, eventC] emptySport).1) ∧
     (syncPass failBAdapter "t1" [eventB, eventC] emptySport).2.1 =
      { created := (buildLocalEventsMap [eventB, eventC]).countP
          (isCreateOk failBAdapter emptySport),
        updated := (buildLocalEventsMap [eventB, eventC]).countP
          (isUpdateOk failBAdapter emptySport),
        deleted := (keysOf (passPhase1 failBAdapter "t1" [eventB, eventC]
            emptySport).1.events).countP
          (isDeleteOk failBAdapter (buildLocalEventsMap [eventB, eventC])
            (passPhase1 failBAdapter "t1" [eventB, eventC] emptySport).1),
        unchanged := (buildLocalEventsMap [eventB, eventC]).countP
          (isUnchangedEntry emptySport) }) :=
  syncPass_failure_isolation failBAdapter "t1" [eventB, eventC] emptySport
    (by decide)

/-- C5: after all events of `E` have been processed, every id present in
the prior state's records but absent from `E` is subjected to a DELETE
against the remote system at its stored remote id; when that delete
succeeds the record is removed from the resulting state (so the orphaned
id is gone from the state until some future CREATE re-adds it); and
DELETE processing begins only after every CREATE/UPDATE/SKIP decision:
the pass's call log is a prefix without delete calls followed by a
suffix of delete calls only. -/
theorem orphan_removal (ad : Adapter) (now : String)
    (localEvents : List Event) (s0 : SportSyncState)
    (hnd0 : (keysOf s0.events).Nodup) :
    (∀ id r, assocFind s0.events id = some r →
      assocFind (buildLocalEventsMap localEvents) id = none →
      RemoteCall.delete r.googleEventId ∈
        (syncPass ad now localEvents s0).2.2 ∧
      (ad.delete r.googleEventId = Except.ok () →
        assocFind (syncPass ad now localEvents s0).1.events id = none)) ∧
    (∃ c1 c2, (syncPass ad now localEvents s0).2.2 = c1 ++ c2 ∧
      (∀ c ∈ c1, ∀ g, c ≠ RemoteCall.delete g) ∧
      (∀ c ∈ c2, ∃ g, c = RemoteCall.delete g)) := by
  have hids : (keysOf (passPhase1 ad now localEvents s0).1.events).Nodup :=
    processEvents_nodup ad now _ s0 _ _ hnd0
  have hsplit := syncPass_calls_split ad now localEvents s0 hnd0
  constructor
  · intro id r hr hm
    have hnotm : id ∉ keysOf (buildLocalEventsMap localEvents) := by
      intro hmem
      have := assocFind_isSome_of_mem_keys _ _ hmem
      simp [hm] at this
    have hs1 : assocFind (passPhase1 ad now localEvents s0).1.events id =
        some r := by
      show assocFind (processEvents ad now (buildLocalEventsMap localEvents)
        s0 { created := 0, updated := 0, deleted := 0, unchanged := 0 }
        []).1.events id = some r
      rw [processEvents_find_of_not_mem ad now _ s0 _ _ id hnotm]
      exact hr
    have hidmem : id ∈ keysOf (passPhase1 ad now localEvents s0).1.events :=
      mem_keysOf_of_assocFind _ _ _ hs1
    have hdec : deleteDecisionCall ad (buildLocalEventsMap localEvents)
        (passPhase1 ad now localEvents s0).1 id =
        some (RemoteCall.delete r.googleEventId) := by
      simp [deleteDecisionCall, hm, hs1]
    constructor
    · rw [hsplit]
      refine List.mem_append_right _ ?_
      exact List.mem_filterMap.mpr ⟨id, hidmem, hdec⟩
    · intro hok
      have hfind2 : assocFind (passDeletes ad now localEvents s0).1.events id =
          deleteOutcome ad (buildLocalEventsMap localEvents)
            (passPhase1 ad now localEvents s0).1 id := by
        rw [passDeletes_eq]
        exact processDeletes_find_of_mem ad _ _ _ _ _ id hids hidmem
      have : assocFind (syncPass ad now localEvents s0).1.events id =
          assocFind (passDeletes ad now localEvents s0).1.events id := rfl
      rw [this, hfind2]
      simp [deleteOutcome, hm, hs1, hok]
  · refine ⟨(buildLocalEventsMap localEvents).filterMap (decisionCall ad s0),
      (keysOf (passPhase1 ad now localEvents s0).1.events).filterMap
        (deleteDecisionCall ad (buildLocalEventsMap localEvents)
          (passPhase1 ad now localEvents s0).1), hsplit, ?_, ?_⟩
    · intro c hc
      obtain ⟨p, _, hp⟩ := List.mem_filterMap.mp hc
      exact decisionCall_not_delete ad s0 p c hp
    · intro c hc
      obtain ⟨k, _, hk⟩ := List.mem_filterMap.mp hc
      exact deleteDecisionCall_is_delete ad _ _ k c hk

/-- A state holding only an orphaned record `O`. -/
def orphanRecord : SyncRecord :=
  { googleEventId := "gO", lastSynced := "t0", hash := "hO" }

def orphanSport : SportSyncState :=
  { calendarId := "cal", events := [("O", orphanRecord)], stats := ⟨1, "t0"⟩ }

theorem orphan_removal_witness :
    ((∀ id r, assocFind orphanSport.events id = some r →
      assocFind (buildLocalEventsMap [eventC]) id = none →
      RemoteCall.delete r.googleEventId ∈
        (syncPass okAdapter "t1" [eventC] orphanSport).2.2 ∧
      (okAdapter.delete r.googleEventId = Except.ok () →
        assocFind (syncPass okAdapter "t1" [eventC] orphanSport).1.events
          id = none)) ∧
     (∃ c1 c2, (syncPass okAdapter "t1" [eventC] orphanSport).2.2 =
        c1 ++ c2 ∧
      (∀ c ∈ c1, ∀ g, c ≠ RemoteCall.delete g) ∧
      (∀ c ∈ c2, ∃ g, c = RemoteCall.delete g))) :=
  orphan_removal okAdapter "t1" [eventC] orphanSport (by decide)

/-- C7: re-running a reconciliation pass with the canonical set that just
converged — every adapter call of the first pass succeeding and no
external drift, ids pairwise distinct — yields `created = 0`,
`updated = 0`, `deleted = 0` with every event counted as unchanged; the
second pass issues no remote adapter call at all. -/
theorem syncPass_idempotent (ad : Adapter) (now1 now2 : String)
    (E : List Event) (s0 : SportSyncState)
    (hnd0 : (keysOf s0.events).Nodup) (hE : (E.map Event.id).Nodup)
    (hc : ∀ e, ∃ g, ad.create e = Except.ok g)
    (hu : ∀ g e, ad.update g e = Except.ok ())
    (hd : ∀ g, ad.delete g = Except.ok ()) :
    (syncPass ad now2 E (syncPass ad now1 E s0).1).2.1 =
      { created := 0, updated := 0, deleted := 0, unchanged := E.length } ∧
    (syncPass ad now2 E (syncPass ad now1 E s0).1).2.2 = [] := by
  have hmnd : (keysOf (buildLocalEventsMap E)).Nodup :=
    buildLocalEventsMap_nodup E
  have hs1nd : (keysOf (passPhase1 ad now1 E s0).1.events).Nodup :=
    processEvents_nodup ad now1 _ s0 _ _ hnd0
  -- phase 1 of the first pass converges every entry of the map
  have hconv1 : ∀ p ∈ buildLocalEventsMap E, ∃ r,
      assocFind (passPhase1 ad now1 E s0).1.events p.1 = some r ∧
      r.hash = calculateEventHash p.2 := by
    intro p hp
    obtain ⟨r, hr, hh⟩ := entryNewRecord_success ad now1 s0 p hc hu
    refine ⟨r, ?_, hh⟩
    show assocFind (processEvents ad now1 (buildLocalEventsMap E) s0
      { created := 0, updated := 0, deleted := 0, unchanged := 0 }
      []).1.events p.1 = some r
    rw [processEvents_find_of_mem ad now1 _ s0 _ _ p.1 p.2 hmnd
      (by simpa using hp)]
    simpa using hr
  -- the delete phase leaves every reported key untouched
  have hs2m : ∀ k, (assocFind (buildLocalEventsMap E) k).isSome →
      assocFind (passDeletes ad now1 E s0).1.events k =
        assocFind (passPhase1 ad now1 E s0).1.events k := by
    intro k hk
    rw [passDeletes_eq]
    by_cases hkid : k ∈ keysOf (passPhase1 ad now1 E s0).1.events
    · rw [processDeletes_find_of_mem ad _ _ _ _ _ k hs1nd hkid]
      simp [deleteOutcome, hk]
    · rw [processDeletes_find_of_not_mem ad _ _ _ _ _ k hkid]
  -- and removes every key no longer reported
  have hs2notm : ∀ k, assocFind (buildLocalEventsMap E) k = none →
      assocFind (passDeletes ad now1 E s0).1.events k = none := by
    intro k hk
    rw [passDeletes_eq]
    cases hfind : assocFind (passPhase1 ad now1 E s0).1.events k with
    | none => exact processDeletes_none_mono ad _ _ _ _ _ k hfind
    | some r =>
        have hkid : k ∈ keysOf (passPhase1 ad now1 E s0).1.events :=
          mem_keysOf_of_assocFind _ _ _ hfind
        rw [processDeletes_find_of_mem ad _ _ _ _ _ k hs1nd hkid]
        simp [deleteOutcome, hk, hfind, hd r.googleEventId]
  have hply : (syncPass ad now1 E s0).1.events =
      (passDeletes ad now1 E s0).1.events := rfl
  -- the converged state of the first pass
  have hconv2 : ∀ p ∈ buildLocalEventsMap E, ∃ r,
      assocFind (syncPass ad now1 E s0).1.events p.1 = some r ∧
      r.hash = calculateEventHash p.2 := by
    intro p hp
    obtain ⟨r, hr, hh⟩ := hconv1 p hp
    refine ⟨r, ?_, hh⟩
    rw [hply, hs2m p.1 (assocFind_isSome_of_mem_keys _ _
      (List.mem_map_of_mem Prod.fst hp))]
    exact hr
  have hsupp : ∀ k ∈ keysOf (syncPass ad now1 E s0).1.events,
      (assocFind (buildLocalEventsMap E) k).isSome := by
    intro k hk
    by_contra hnot
    have hknone : assocFind (buildLocalEventsMap E) k = none := by
      cases h : assocFind (buildLocalEventsMap E) k with
      | none => rfl
      | some v => simp [h] at hnot
    have h1 := hs2notm k hknone
    have h2 := assocFind_isSome_of_mem_keys _ _ hk
    rw [hply] at h2
    simp [h1] at h2
  -- the second pass skips everything and deletes nothing
  have hphase2 : passPhase1 ad now2 E (syncPass ad now1 E s0).1 =
      ((syncPass ad now1 E s0).1,
       { created := 0, updated := 0, deleted := 0,
         unchanged := 0 + (buildLocalEventsMap E).length }, []) := by
    show processEvents ad now2 (buildLocalEventsMap E) _ _ [] = _
    exact processEvents_all_skip ad now2 _ _ _ [] hconv2
  have hdel2 : passDeletes ad now2 E (syncPass ad now1 E s0).1 =
      ((syncPass ad now1 E s0).1,
       { created := 0, updated := 0, deleted := 0,
         unchanged := 0 + (buildLocalEventsMap E).length }, []) := by
    rw [passDeletes_eq, hphase2]
    exact processDeletes_all_skip ad _ _ _ _ _ hsupp
  have hlen : (buildLocalEventsMap E).length = E.length := by
    rw [buildLocalEventsMap_of_nodup E hE, List.length_map]
  constructor
  · rw [syncPass_eq, hdel2]
    simp [hlen]
  · rw [syncPass_eq, hdel2]

theorem syncPass_idempotent_witness :
    ((keysOf emptySport.events).Nodup ∧
     ([eventC].map Event.id).Nodup ∧
     ((syncPass okAdapter "t2" [eventC]
        (syncPass okAdapter "t1" [eventC] emptySport).1).2.1 =
      { created := 0, updated := 0, deleted := 0,
        unchanged := [eventC].length } ∧
      (syncPass okAdapter "t2" [eventC]
        (syncPass okAdapter "t1" [eventC] emptySport).1).2.2 = [])) :=
  ⟨by decide, by decide,
    syncPass_idempotent okAdapter "t1" "t2" [eventC] emptySport
      (by decide) (by decide)
      (fun e => ⟨"g-" ++ e.id, rfl⟩) (fun _ _ => rfl) (fun _ => rfl)⟩

end GamesCalendar
